import Mathlib

/-!
Shallow embedding of the guest memory subsystem from `src/core/memory.cpp`
(Citra's `Memory` namespace): page tables, the rasterizer cache marker,
typed and block reads/writes, physical/virtual translation and the
rasterizer cache marking entry point.  Host pointers are modelled as a
backing-store tag plus a byte offset; backing-store contents are functions
from offsets to byte values; error-level logs and rasterizer flush calls
are recorded as events; fatal paths (failed asserts, `UNREACHABLE()`,
null-pointer dereference) are modelled by `Option.none`.
-/

set_option maxRecDepth 16384

namespace CitraMemory

/-- Modelled from the spec: the page-size constants from the memory core's
header (`PAGE_BITS`, `PAGE_SIZE`, `PAGE_MASK`, `PAGE_TABLE_NUM_ENTRIES`),
which is not part of the provided sources. Spec §3: PAGE_BITS = 12,
PAGE_SIZE = 4096, PAGE_MASK = 0xFFF, PAGE_TABLE_NUM_ENTRIES = 2^20. -/
def PAGE_BITS : Nat := 12

def PAGE_SIZE : Nat := 4096

def PAGE_MASK : Nat := 0xFFF

def PAGE_TABLE_NUM_ENTRIES : Nat := 1048576

/-- Modulus of unsigned 32-bit arithmetic (`u32`, `VAddr`, `PAddr`). -/
def TWO32 : Nat := 4294967296

/-- Modelled from the spec: the fixed virtual windows and physical windows
(`VRAM_VADDR`, `LINEAR_HEAP_VADDR`, `NEW_LINEAR_HEAP_VADDR`, `VRAM_PADDR`,
`DSP_RAM_PADDR`, `FCRAM_PADDR`, `N3DS_EXTRA_RAM_PADDR` and their sizes and
`_END` companions) referenced by `memory.cpp` but declared in a header not
present under the provided sources.  Values are the constants of the 3DS
memory map this repository targets. -/
def VRAM_SIZE : Nat := 0x00600000

def LINEAR_HEAP_SIZE : Nat := 0x08000000

def NEW_LINEAR_HEAP_SIZE : Nat := 0x10000000

def VRAM_VADDR : Nat := 0x1F000000

def VRAM_VADDR_END : Nat := VRAM_VADDR + VRAM_SIZE

def LINEAR_HEAP_VADDR : Nat := 0x14000000

def LINEAR_HEAP_VADDR_END : Nat := LINEAR_HEAP_VADDR + LINEAR_HEAP_SIZE

def NEW_LINEAR_HEAP_VADDR : Nat := 0x30000000

def NEW_LINEAR_HEAP_VADDR_END : Nat := NEW_LINEAR_HEAP_VADDR + NEW_LINEAR_HEAP_SIZE

def VRAM_PADDR : Nat := 0x18000000

def VRAM_PADDR_END : Nat := VRAM_PADDR + VRAM_SIZE

def DSP_RAM_PADDR : Nat := 0x1FF00000

def DSP_RAM_SIZE : Nat := 0x00080000

def DSP_RAM_PADDR_END : Nat := DSP_RAM_PADDR + DSP_RAM_SIZE

def FCRAM_PADDR : Nat := 0x20000000

def FCRAM_SIZE : Nat := 0x08000000

def FCRAM_N3DS_SIZE : Nat := 0x10000000

def FCRAM_PADDR_END : Nat := FCRAM_PADDR + FCRAM_SIZE

def FCRAM_N3DS_PADDR_END : Nat := FCRAM_PADDR + FCRAM_N3DS_SIZE

def N3DS_EXTRA_RAM_PADDR : Nat := 0x1F000000

def N3DS_EXTRA_RAM_SIZE : Nat := 0x00400000

def N3DS_EXTRA_RAM_PADDR_END : Nat := N3DS_EXTRA_RAM_PADDR + N3DS_EXTRA_RAM_SIZE

/-- `PageType` from the memory core: the attribute of a page-table entry.
`Special` is declared but never used by `memory.cpp` (it reaches the
`default: UNREACHABLE()` branches). -/
inductive PageType where
  | Unmapped
  | Memory
  | Special
  | RasterizerCachedMemory
deriving DecidableEq

/-- The backing stores a host pointer can point into: the three buffers
owned by `MemorySystem::Impl` (`fcram`, `vram`, `n3ds_extra_ram`), the
externally owned DSP RAM, and arbitrary external host buffers (`ext id`)
for pointers handed to `MapMemoryRegion` from elsewhere. -/
inductive Backing where
  | fcram
  | vram
  | n3dsExtraRam
  | dspRam
  | ext (id : Nat)
deriving DecidableEq

/-- A non-null host byte pointer: a backing store plus a byte offset.
C++ pointer arithmetic `p + n` is `HostPtr.add`. -/
structure HostPtr where
  backing : Backing
  offset : Nat
deriving DecidableEq

def HostPtr.add (p : HostPtr) (n : Nat) : HostPtr :=
  ⟨p.backing, p.offset + n⟩

/-- Host memory contents: for each backing store, bytes by offset.
All stored values are kept `< 256` by `Mem.write`. -/
def Mem : Type := Backing → Nat → Nat

/-- Read the byte a host pointer points at. -/
def Mem.read (m : Mem) (p : HostPtr) : Nat :=
  m p.backing p.offset

/-- Store one byte (`u8` truncation) at a host pointer. -/
def Mem.write (m : Mem) (p : HostPtr) (v : Nat) : Mem :=
  fun b o => if b = p.backing ∧ o = p.offset then v % 256 else m b o

/-- `FlushMode` from the memory core. -/
inductive FlushMode where
  | Flush
  | Invalidate
  | FlushAndInvalidate
deriving DecidableEq

/-- Observable side effects of the memory core: error-level log lines and
the three rasterizer entry points (`FlushRegion`, `InvalidateRegion`,
`FlushAndInvalidateRegion`), each with its physical range. -/
inductive Event where
  | logError
  | flushRegion (paddr size : Nat)
  | invalidateRegion (paddr size : Nat)
  | flushAndInvalidateRegion (paddr size : Nat)
deriving DecidableEq

/-- `RasterizerCacheMarker`: one cached-bit per page of each of the three
cacheable virtual windows. -/
structure RasterizerCacheMarker where
  vram : Nat → Bool
  linear_heap : Nat → Bool
  new_linear_heap : Nat → Bool

/-- `RasterizerCacheMarker::Mark`: set the cached bit of the page holding
`addr`; a no-op when `addr` lies in none of the three windows (`At`
returns null). -/
def RasterizerCacheMarker.Mark (m : RasterizerCacheMarker) (addr : Nat) (cached : Bool) :
    RasterizerCacheMarker :=
  if VRAM_VADDR ≤ addr ∧ addr < VRAM_VADDR_END then
    { m with vram := fun i => if i = (addr - VRAM_VADDR) / PAGE_SIZE then cached else m.vram i }
  else if LINEAR_HEAP_VADDR ≤ addr ∧ addr < LINEAR_HEAP_VADDR_END then
    { m with linear_heap :=
        fun i => if i = (addr - LINEAR_HEAP_VADDR) / PAGE_SIZE then cached else m.linear_heap i }
  else if NEW_LINEAR_HEAP_VADDR ≤ addr ∧ addr < NEW_LINEAR_HEAP_VADDR_END then
    { m with new_linear_heap :=
        fun i =>
          if i = (addr - NEW_LINEAR_HEAP_VADDR) / PAGE_SIZE then cached
          else m.new_linear_heap i }
  else m

/-- `RasterizerCacheMarker::IsCached`: the cached bit of the page holding
`addr`, false outside the three windows. -/
def RasterizerCacheMarker.IsCached (m : RasterizerCacheMarker) (addr : Nat) : Bool :=
  if VRAM_VADDR ≤ addr ∧ addr < VRAM_VADDR_END then
    m.vram ((addr - VRAM_VADDR) / PAGE_SIZE)
  else if LINEAR_HEAP_VADDR ≤ addr ∧ addr < LINEAR_HEAP_VADDR_END then
    m.linear_heap ((addr - LINEAR_HEAP_VADDR) / PAGE_SIZE)
  else if NEW_LINEAR_HEAP_VADDR ≤ addr ∧ addr < NEW_LINEAR_HEAP_VADDR_END then
    m.new_linear_heap ((addr - NEW_LINEAR_HEAP_VADDR) / PAGE_SIZE)
  else false

/-- `PageTable`: the two parallel arrays, indexed by page number;
`pointers i = none` models a null pointer. -/
structure PageTable where
  pointers : Nat → Option HostPtr
  attributes : Nat → PageType

/-- `MemorySystem::Impl`: backing-store bytes, the current page table and
the registry of page tables (as identifiers into a table heap, so that
mutations through the registry are visible through `currentTable`), the
cache marker, and whether the DSP handle has been injected (`SetDSP`). -/
structure MemorySystem where
  mem : Mem
  cache_marker : RasterizerCacheMarker
  tables : Nat → PageTable
  page_table_list : List Nat
  currentTable : Nat
  dspSet : Bool

/-- `MemorySystem::GetPointerForRasterizerCache`; `none` models the
`UNREACHABLE()` outside the three cacheable windows. -/
def GetPointerForRasterizerCache (addr : Nat) : Option HostPtr :=
  if LINEAR_HEAP_VADDR ≤ addr ∧ addr < LINEAR_HEAP_VADDR_END then
    some ⟨Backing.fcram, addr - LINEAR_HEAP_VADDR⟩
  else if NEW_LINEAR_HEAP_VADDR ≤ addr ∧ addr < NEW_LINEAR_HEAP_VADDR_END then
    some ⟨Backing.fcram, addr - NEW_LINEAR_HEAP_VADDR⟩
  else if VRAM_VADDR ≤ addr ∧ addr < VRAM_VADDR_END then
    some ⟨Backing.vram, addr - VRAM_VADDR⟩
  else none

/-- `MemorySystem::GetPhysicalPointer`. The windows' upper bounds are
compared with `<=`, exactly as in the source.  The DSP branch dereferences
the injected DSP handle, so it aborts (`none`) when `SetDSP` has not been
called. -/
def MemorySystem.GetPhysicalPointer (s : MemorySystem) (address : Nat) : Option HostPtr :=
  if VRAM_PADDR ≤ address ∧ address ≤ VRAM_PADDR_END then
    some ⟨Backing.vram, address - VRAM_PADDR⟩
  else if DSP_RAM_PADDR ≤ address ∧ address ≤ DSP_RAM_PADDR_END then
    if s.dspSet then some ⟨Backing.dspRam, address - DSP_RAM_PADDR⟩ else none
  else if FCRAM_PADDR ≤ address ∧ address ≤ FCRAM_N3DS_PADDR_END then
    some ⟨Backing.fcram, address - FCRAM_PADDR⟩
  else if N3DS_EXTRA_RAM_PADDR ≤ address ∧ address ≤ N3DS_EXTRA_RAM_PADDR_END then
    some ⟨Backing.n3dsExtraRam, address - N3DS_EXTRA_RAM_PADDR⟩
  else none

/-- `MemorySystem::IsValidPhysicalAddress`: `GetPhysicalPointer` is
non-null. -/
def MemorySystem.IsValidPhysicalAddress (s : MemorySystem) (paddr : Nat) : Bool :=
  (s.GetPhysicalPointer paddr).isSome

/-- `PhysicalToVirtualAddressForRasterizer` and its error log: the list of
virtual aliases of `addr`, plus whether the error branch logged. -/
def PhysicalToVirtualAddressForRasterizer (addr : Nat) : List Nat × Bool :=
  if VRAM_PADDR ≤ addr ∧ addr < VRAM_PADDR_END then
    ([addr - VRAM_PADDR + VRAM_VADDR], false)
  else if FCRAM_PADDR ≤ addr ∧ addr < FCRAM_PADDR_END then
    ([addr - FCRAM_PADDR + LINEAR_HEAP_VADDR, addr - FCRAM_PADDR + NEW_LINEAR_HEAP_VADDR], false)
  else if FCRAM_PADDR_END ≤ addr ∧ addr < FCRAM_N3DS_PADDR_END then
    ([addr - FCRAM_PADDR + NEW_LINEAR_HEAP_VADDR], false)
  else ([], true)

/-- The `CheckRegion` lambda inside `RasterizerFlushVirtualRegion`:
the rasterizer call (as an event) for the overlap of
`[start, endv)` with one virtual window, empty when no overlap. -/
def checkRegion (start endv : Nat) (mode : FlushMode)
    (regionStart regionEnd paddrRegionStart : Nat) : List Event :=
  if regionEnd ≤ start ∨ endv ≤ regionStart then []
  else
    let overlapStart := max start regionStart
    let overlapEnd := min endv regionEnd
    let physicalStart := paddrRegionStart + (overlapStart - regionStart)
    let overlapSize := overlapEnd - overlapStart
    match mode with
    | FlushMode.Flush => [Event.flushRegion physicalStart overlapSize]
    | FlushMode.Invalidate => [Event.invalidateRegion physicalStart overlapSize]
    | FlushMode.FlushAndInvalidate => [Event.flushAndInvalidateRegion physicalStart overlapSize]

/-- `RasterizerFlushVirtualRegion`: dispatch the overlap of the range with
each of the three cacheable windows (`end` wraps as a `u32`). -/
def RasterizerFlushVirtualRegion (start size : Nat) (mode : FlushMode) : List Event :=
  let endv := (start + size) % TWO32
  checkRegion start endv mode LINEAR_HEAP_VADDR LINEAR_HEAP_VADDR_END FCRAM_PADDR ++
    checkRegion start endv mode NEW_LINEAR_HEAP_VADDR NEW_LINEAR_HEAP_VADDR_END FCRAM_PADDR ++
    checkRegion start endv mode VRAM_VADDR VRAM_VADDR_END VRAM_PADDR

/-- Read `n` consecutive bytes starting at a host pointer. -/
def readBytes (m : Mem) (p : HostPtr) : Nat → List Nat
  | 0 => []
  | k + 1 => m.read p :: readBytes m (p.add 1) k

/-- Write a list of bytes consecutively starting at a host pointer
(`memcpy` into host memory). -/
def writeBytes (m : Mem) (p : HostPtr) : List Nat → Mem
  | [] => m
  | b :: rest => writeBytes (m.write p b) (p.add 1) rest

/-- Assemble a `k`-byte little-endian value from host memory (the effect
of `memcpy` into a `u*_le` variable). -/
def readBytesLE (m : Mem) (p : HostPtr) : Nat → Nat
  | 0 => 0
  | k + 1 => m.read p + 256 * readBytesLE m (p.add 1) k

/-- Store a `k`-byte value little-endian into host memory (the effect of
`memcpy` from a `u*_le` variable). -/
def writeBytesLE (m : Mem) (p : HostPtr) (v : Nat) : Nat → Mem
  | 0 => m
  | k + 1 => writeBytesLE (m.write p v) (p.add 1) (v / 256) k

/-- `MemorySystem::Read<T>` for a `T` of `w` bytes: fast path through the
page-table pointer, else dispatch on the attribute.  Returns the value and
the emitted events; `none` models the fatal paths (`Memory` page with a
null pointer, `UNREACHABLE()` for `Special`, rasterizer-cached page
outside the cacheable windows). -/
def MemorySystem.Read (s : MemorySystem) (w : Nat) (vaddr : Nat) : Option (Nat × List Event) :=
  let t := s.tables s.currentTable
  match t.pointers (vaddr / PAGE_SIZE) with
  | some p => some (readBytesLE s.mem (p.add (vaddr % PAGE_SIZE)) w, [])
  | none =>
    match t.attributes (vaddr / PAGE_SIZE) with
    | PageType.Unmapped => some (0, [Event.logError])
    | PageType.Memory => none
    | PageType.RasterizerCachedMemory =>
      match GetPointerForRasterizerCache vaddr with
      | some p => some (readBytesLE s.mem p w, RasterizerFlushVirtualRegion vaddr w FlushMode.Flush)
      | none => none
    | PageType.Special => none

/-- `MemorySystem::Write<T>` for a `T` of `w` bytes: fast path through the
page-table pointer, else dispatch on the attribute.  Returns the new state
and the emitted events; `none` models the fatal paths. -/
def MemorySystem.Write (s : MemorySystem) (w : Nat) (vaddr : Nat) (data : Nat) :
    Option (MemorySystem × List Event) :=
  let t := s.tables s.currentTable
  match t.pointers (vaddr / PAGE_SIZE) with
  | some p =>
    some ({ s with mem := writeBytesLE s.mem (p.add (vaddr % PAGE_SIZE)) data w }, [])
  | none =>
    match t.attributes (vaddr / PAGE_SIZE) with
    | PageType.Unmapped => some (s, [Event.logError])
    | PageType.Memory => none
    | PageType.RasterizerCachedMemory =>
      match GetPointerForRasterizerCache vaddr with
      | some p =>
        some ({ s with mem := writeBytesLE s.mem p data w },
          RasterizerFlushVirtualRegion vaddr w FlushMode.Invalidate)
      | none => none
    | PageType.Special => none

/-- One iteration of the `MemorySystem::MapPages` while-loop: write the
page-table entry at `base`, overriding the attribute to
`RasterizerCachedMemory` with a null pointer when mapping `Memory` over a
page the cache marker reports as cached. -/
def MapPagesWrite (marker : RasterizerCacheMarker) (t : PageTable) (base : Nat)
    (memory : Option HostPtr) (type : PageType) : PageTable :=
  let t1 : PageTable :=
    { attributes := fun i => if i = base then type else t.attributes i
      pointers := fun i => if i = base then memory else t.pointers i }
  if type = PageType.Memory ∧ marker.IsCached (base * PAGE_SIZE) then
    { attributes := fun i => if i = base then PageType.RasterizerCachedMemory
                             else t1.attributes i
      pointers := fun i => if i = base then none else t1.pointers i }
  else t1

/-- The loop of `MemorySystem::MapPages` (while `base != end`): write
`size` consecutive page-table entries.  `none` models the
`ASSERT_MSG(base < PAGE_TABLE_NUM_ENTRIES, ...)` failure. -/
def MapPagesLoop (marker : RasterizerCacheMarker) (t : PageTable) (base : Nat) :
    Nat → Option HostPtr → PageType → Option PageTable
  | 0, _, _ => some t
  | n + 1, memory, type =>
    if base < PAGE_TABLE_NUM_ENTRIES then
      MapPagesLoop marker (MapPagesWrite marker t base memory type) (base + 1) n
        (memory.map (fun p => p.add PAGE_SIZE)) type
    else none

/-- `MemorySystem::MapPages`: flush-and-invalidate the virtual range, then
write the page-table entries; `tid` names the table in the table heap
(the `PageTable&` argument). -/
def MemorySystem.MapPages (s : MemorySystem) (tid : Nat) (base size : Nat)
    (memory : Option HostPtr) (type : PageType) : Option (MemorySystem × List Event) :=
  let ev := RasterizerFlushVirtualRegion ((base * PAGE_SIZE) % TWO32) ((size * PAGE_SIZE) % TWO32)
    FlushMode.FlushAndInvalidate
  match MapPagesLoop s.cache_marker (s.tables tid) base size memory type with
  | none => none
  | some t2 =>
    some ({ s with tables := fun j => if j = tid then t2 else s.tables j }, ev)

/-- `MemorySystem::MapMemoryRegion`; `none` models the alignment assert
failures. -/
def MemorySystem.MapMemoryRegion (s : MemorySystem) (tid : Nat) (base size : Nat)
    (target : Option HostPtr) : Option (MemorySystem × List Event) :=
  if size % PAGE_SIZE = 0 ∧ base % PAGE_SIZE = 0 then
    s.MapPages tid (base / PAGE_SIZE) (size / PAGE_SIZE) target PageType.Memory
  else none

/-- `MemorySystem::UnmapRegion`; `none` models the alignment assert
failures. -/
def MemorySystem.UnmapRegion (s : MemorySystem) (tid : Nat) (base size : Nat) :
    Option (MemorySystem × List Event) :=
  if size % PAGE_SIZE = 0 ∧ base % PAGE_SIZE = 0 then
    s.MapPages tid (base / PAGE_SIZE) (size / PAGE_SIZE) none PageType.Unmapped
  else none

/-- The per-table body of `RasterizerMarkRegionCached`'s innermost loop:
the attribute transition at the page holding `vaddr`.  `none` models the
`UNREACHABLE()` branches (and the `UNREACHABLE()` inside
`GetPointerForRasterizerCache` for the restored pointer). -/
def applyMark (cached : Bool) (vaddr : Nat) (t : PageTable) : Option PageTable :=
  let idx := vaddr / PAGE_SIZE
  if cached then
    match t.attributes idx with
    | PageType.Unmapped => some t
    | PageType.Memory =>
      some { attributes := fun i => if i = idx then PageType.RasterizerCachedMemory
                                    else t.attributes i
             pointers := fun i => if i = idx then none else t.pointers i }
    | _ => none
  else
    match t.attributes idx with
    | PageType.Unmapped => some t
    | PageType.RasterizerCachedMemory =>
      match GetPointerForRasterizerCache (vaddr - vaddr % PAGE_SIZE) with
      | some p =>
        some { attributes := fun i => if i = idx then PageType.Memory else t.attributes i
               pointers := fun i => if i = idx then some p else t.pointers i }
      | none => none
    | _ => none

/-- The `for (auto page_table : impl->page_table_list)` loop: apply the
attribute transition at `vaddr` to every registered table. -/
def markTables (tables : Nat → PageTable) (ids : List Nat) (vaddr : Nat) (cached : Bool) :
    Option (Nat → PageTable) :=
  match ids with
  | [] => some tables
  | id :: rest =>
    match applyMark cached vaddr (tables id) with
    | none => none
    | some t2 => markTables (fun j => if j = id then t2 else tables j) rest vaddr cached

/-- One `vaddr` alias step of `RasterizerMarkRegionCached`: record the bit
in the marker, then update every registered table. -/
def markVaddr (s : MemorySystem) (vaddr : Nat) (cached : Bool) : Option MemorySystem :=
  let s1 := { s with cache_marker := s.cache_marker.Mark vaddr cached }
  match markTables s1.tables s1.page_table_list vaddr cached with
  | none => none
  | some tabs => some { s1 with tables := tabs }

/-- The `for (VAddr vaddr : PhysicalToVirtualAddressForRasterizer(paddr))`
loop. -/
def markAliases (s : MemorySystem) (vaddrs : List Nat) (cached : Bool) : Option MemorySystem :=
  match vaddrs with
  | [] => some s
  | v :: rest =>
    match markVaddr s v cached with
    | none => none
    | some s2 => markAliases s2 rest cached

/-- The page loop of `RasterizerMarkRegionCached` (`paddr` advances by
`PAGE_SIZE` in `u32` arithmetic). -/
def markPages (s : MemorySystem) (paddr : Nat) (cached : Bool) : Nat → Option MemorySystem
  | 0 => some s
  | n + 1 =>
    match markAliases s (PhysicalToVirtualAddressForRasterizer paddr).1 cached with
    | none => none
    | some s2 => markPages s2 ((paddr + PAGE_SIZE) % TWO32) cached n

/-- `MemorySystem::RasterizerMarkRegionCached`; `start == 0` returns
immediately; the page count is computed in `u32` arithmetic as
`((start + size - 1) >> PAGE_BITS) - (start >> PAGE_BITS) + 1`. -/
def MemorySystem.RasterizerMarkRegionCached (s : MemorySystem) (start size : Nat)
    (cached : Bool) : Option MemorySystem :=
  if start = 0 then some s
  else
    let num_pages :=
      ((((start + size - 1) % TWO32) / PAGE_SIZE + TWO32 - start / PAGE_SIZE) % TWO32 + 1) % TWO32
    markPages s start cached num_pages

/-- One iteration body of the `ReadBlock` loop (the `switch` on the
page's attribute): the bytes read for this page's clipped sub-range and
the events emitted. -/
def ReadBlockStep (mem : Mem) (t : PageTable) (pageIndex pageOffset copy_amount : Nat) :
    Option (List Nat × List Event) :=
  let current_vaddr := pageIndex * PAGE_SIZE + pageOffset
  match t.attributes pageIndex with
  | PageType.Unmapped => some (List.replicate copy_amount 0, [Event.logError])
  | PageType.Memory =>
    match t.pointers pageIndex with
    | some p => some (readBytes mem (p.add pageOffset) copy_amount, [])
    | none => none
  | PageType.RasterizerCachedMemory =>
    match GetPointerForRasterizerCache current_vaddr with
    | some p =>
      some (readBytes mem p copy_amount,
        RasterizerFlushVirtualRegion current_vaddr copy_amount FlushMode.Flush)
    | none => none
  | PageType.Special => none

/-- The loop of `MemorySystem::ReadBlock`: walk page by page, clipping
each step to `min(PAGE_SIZE - page_offset, remaining)`; produces the bytes
written into the destination buffer, in order, plus the events.  `fuel`
bounds the iteration count (callers pass `remaining`, which suffices since
every iteration consumes at least one byte); `none` models the fatal
paths. -/
def ReadBlockLoop (mem : Mem) (t : PageTable) :
    Nat → Nat → Nat → Nat → Option (List Nat × List Event)
  | 0, _, _, remaining => if remaining = 0 then some ([], []) else none
  | fuel + 1, pageIndex, pageOffset, remaining =>
    if remaining = 0 then some ([], [])
    else
      let copy_amount := min (PAGE_SIZE - pageOffset) remaining
      match ReadBlockStep mem t pageIndex pageOffset copy_amount with
      | none => none
      | some (bytes, evs) =>
        match ReadBlockLoop mem t fuel (pageIndex + 1) 0 (remaining - copy_amount) with
        | none => none
        | some (bytes2, evs2) => some (bytes ++ bytes2, evs ++ evs2)

/-- `MemorySystem::ReadBlock` against the page table of the given
process. -/
def ReadBlock (mem : Mem) (t : PageTable) (src_addr size : Nat) :
    Option (List Nat × List Event) :=
  ReadBlockLoop mem t size (src_addr / PAGE_SIZE) (src_addr % PAGE_SIZE) size

/-- One iteration body of the `WriteBlock` loop (the `switch` on the
page's attribute): the host memory after this page's clipped sub-range is
written and the events emitted. -/
def WriteBlockStep (t : PageTable) (mem : Mem) (pageIndex pageOffset : Nat) (buf : List Nat)
    (copy_amount : Nat) : Option (Mem × List Event) :=
  let current_vaddr := pageIndex * PAGE_SIZE + pageOffset
  match t.attributes pageIndex with
  | PageType.Unmapped => some (mem, [Event.logError])
  | PageType.Memory =>
    match t.pointers pageIndex with
    | some p => some (writeBytes mem (p.add pageOffset) (buf.take copy_amount), [])
    | none => none
  | PageType.RasterizerCachedMemory =>
    match GetPointerForRasterizerCache current_vaddr with
    | some p =>
      some (writeBytes mem p (buf.take copy_amount),
        RasterizerFlushVirtualRegion current_vaddr copy_amount FlushMode.Invalidate)
    | none => none
  | PageType.Special => none

/-- The loop of `MemorySystem::WriteBlock`: walk page by page, clipping
each step; `buf` is the remaining source buffer (`src_buffer` advances by
`copy_amount` each iteration). -/
def WriteBlockLoop (t : PageTable) :
    Nat → Mem → Nat → Nat → List Nat → Nat → Option (Mem × List Event)
  | 0, mem, _, _, _, remaining => if remaining = 0 then some (mem, []) else none
  | fuel + 1, mem, pageIndex, pageOffset, buf, remaining =>
    if remaining = 0 then some (mem, [])
    else
      let copy_amount := min (PAGE_SIZE - pageOffset) remaining
      match WriteBlockStep t mem pageIndex pageOffset buf copy_amount with
      | none => none
      | some (mem2, evs) =>
        match WriteBlockLoop t fuel mem2 (pageIndex + 1) 0 (buf.drop copy_amount)
            (remaining - copy_amount) with
        | none => none
        | some (mem3, evs2) => some (mem3, evs ++ evs2)

/-- `MemorySystem::WriteBlock` against the page table of the given
process; `buf` holds the `size` source bytes. -/
def WriteBlock (mem : Mem) (t : PageTable) (dest_addr : Nat) (buf : List Nat) (size : Nat) :
    Option (Mem × List Event) :=
  WriteBlockLoop t size mem (dest_addr / PAGE_SIZE) (dest_addr % PAGE_SIZE) buf size

/-! ### Basic lemmas about host pointers and host memory -/

theorem HostPtr.add_add (p : HostPtr) (a b : Nat) : (p.add a).add b = p.add (a + b) := by
  simp [HostPtr.add, Nat.add_assoc]

theorem HostPtr.add_zero (p : HostPtr) : p.add 0 = p := by
  simp [HostPtr.add]

theorem Mem.read_write_self (m : Mem) (p : HostPtr) (v : Nat) :
    (m.write p v).read p = v % 256 := by
  simp [Mem.read, Mem.write]

theorem Mem.read_write_ne (m : Mem) (p q : HostPtr) (v : Nat) (h : q ≠ p) :
    (m.write p v).read q = m.read q := by
  have : ¬(q.backing = p.backing ∧ q.offset = p.offset) := by
    intro hc
    exact h (by cases p; cases q; simp_all)
  simp [Mem.read, Mem.write, this]

/-! ### C5: virtual aliases of a rasterizer-visible physical address -/

/-- C5: `PhysicalToVirtualAddressForRasterizer` returns exactly one
virtual address for a physical address in the VRAM window; exactly two,
linear heap first and new linear heap second, for the FCRAM region below
the legacy-model end; exactly one (the new-linear-heap alias) for the
enhanced-model-only FCRAM tail; and the empty list, with an error log,
everywhere else. -/
theorem physicalToVirtual_cases (paddr : Nat) :
    (VRAM_PADDR ≤ paddr ∧ paddr < VRAM_PADDR_END →
      PhysicalToVirtualAddressForRasterizer paddr =
        ([paddr - VRAM_PADDR + VRAM_VADDR], false)) ∧
    (FCRAM_PADDR ≤ paddr ∧ paddr < FCRAM_PADDR_END →
      PhysicalToVirtualAddressForRasterizer paddr =
        ([paddr - FCRAM_PADDR + LINEAR_HEAP_VADDR,
          paddr - FCRAM_PADDR + NEW_LINEAR_HEAP_VADDR], false)) ∧
    (FCRAM_PADDR_END ≤ paddr ∧ paddr < FCRAM_N3DS_PADDR_END →
      PhysicalToVirtualAddressForRasterizer paddr =
        ([paddr - FCRAM_PADDR + NEW_LINEAR_HEAP_VADDR], false)) ∧
    (¬(VRAM_PADDR ≤ paddr ∧ paddr < VRAM_PADDR_END) →
      ¬(FCRAM_PADDR ≤ paddr ∧ paddr < FCRAM_N3DS_PADDR_END) →
      PhysicalToVirtualAddressForRasterizer paddr = ([], true)) := by
  refine ⟨fun h => ?_, fun h => ?_, fun h => ?_, fun h1 h2 => ?_⟩
  · simp only [PhysicalToVirtualAddressForRasterizer, VRAM_PADDR, VRAM_PADDR_END, VRAM_SIZE,
      FCRAM_PADDR, FCRAM_PADDR_END, FCRAM_SIZE, FCRAM_N3DS_PADDR_END, FCRAM_N3DS_SIZE,
      VRAM_VADDR, LINEAR_HEAP_VADDR, NEW_LINEAR_HEAP_VADDR] at h ⊢
    split_ifs <;> first
      | omega
      | rfl
  · simp only [PhysicalToVirtualAddressForRasterizer, VRAM_PADDR, VRAM_PADDR_END, VRAM_SIZE,
      FCRAM_PADDR, FCRAM_PADDR_END, FCRAM_SIZE, FCRAM_N3DS_PADDR_END, FCRAM_N3DS_SIZE,
      VRAM_VADDR, LINEAR_HEAP_VADDR, NEW_LINEAR_HEAP_VADDR] at h ⊢
    split_ifs <;> first
      | omega
      | rfl
  · simp only [PhysicalToVirtualAddressForRasterizer, VRAM_PADDR, VRAM_PADDR_END, VRAM_SIZE,
      FCRAM_PADDR, FCRAM_PADDR_END, FCRAM_SIZE, FCRAM_N3DS_PADDR_END, FCRAM_N3DS_SIZE,
      VRAM_VADDR, LINEAR_HEAP_VADDR, NEW_LINEAR_HEAP_VADDR] at h ⊢
    split_ifs <;> first
      | omega
      | rfl
  · simp only [PhysicalToVirtualAddressForRasterizer, VRAM_PADDR, VRAM_PADDR_END, VRAM_SIZE,
      FCRAM_PADDR, FCRAM_PADDR_END, FCRAM_SIZE, FCRAM_N3DS_PADDR_END, FCRAM_N3DS_SIZE,
      VRAM_VADDR, LINEAR_HEAP_VADDR, NEW_LINEAR_HEAP_VADDR] at h1 h2 ⊢
    split_ifs <;> first
      | omega
      | rfl

/-- Witness for C5: the four cases at the concrete physical addresses
`VRAM_PADDR`, `FCRAM_PADDR`, `FCRAM_PADDR_END` and `0`. -/
theorem physicalToVirtual_cases_witness :
    PhysicalToVirtualAddressForRasterizer VRAM_PADDR = ([VRAM_VADDR], false) ∧
    PhysicalToVirtualAddressForRasterizer FCRAM_PADDR =
      ([LINEAR_HEAP_VADDR, NEW_LINEAR_HEAP_VADDR], false) ∧
    PhysicalToVirtualAddressForRasterizer FCRAM_PADDR_END =
      ([FCRAM_SIZE + NEW_LINEAR_HEAP_VADDR], false) ∧
    PhysicalToVirtualAddressForRasterizer 0 = ([], true) := by
  refine ⟨?_, ?_, ?_, ?_⟩
  · exact (physicalToVirtual_cases VRAM_PADDR).1 (by decide)
  · exact (physicalToVirtual_cases FCRAM_PADDR).2.1 (by decide)
  · exact (physicalToVirtual_cases FCRAM_PADDR_END).2.2.1 (by decide)
  · exact (physicalToVirtual_cases 0).2.2.2 (by decide) (by decide)

/-! ### C10: inclusive upper bounds in GetPhysicalPointer -/

/-- C10: `GetPhysicalPointer` compares each physical window's upper bound
with `<=`, so the address exactly equal to each window's `END` constant
(one byte past the last in-range byte) yields a non-null pointer, and
`IsValidPhysicalAddress` is true there.  The DSP window additionally needs
the DSP handle to have been injected. -/
theorem getPhysicalPointer_end_inclusive (s : MemorySystem) (hdsp : s.dspSet = true) :
    s.GetPhysicalPointer VRAM_PADDR_END = some ⟨Backing.vram, VRAM_SIZE⟩ ∧
    s.GetPhysicalPointer DSP_RAM_PADDR_END = some ⟨Backing.dspRam, DSP_RAM_SIZE⟩ ∧
    s.GetPhysicalPointer FCRAM_N3DS_PADDR_END = some ⟨Backing.fcram, FCRAM_N3DS_SIZE⟩ ∧
    s.GetPhysicalPointer N3DS_EXTRA_RAM_PADDR_END =
      some ⟨Backing.n3dsExtraRam, N3DS_EXTRA_RAM_SIZE⟩ ∧
    s.IsValidPhysicalAddress VRAM_PADDR_END = true ∧
    s.IsValidPhysicalAddress DSP_RAM_PADDR_END = true ∧
    s.IsValidPhysicalAddress FCRAM_N3DS_PADDR_END = true ∧
    s.IsValidPhysicalAddress N3DS_EXTRA_RAM_PADDR_END = true := by
  have h1 : s.GetPhysicalPointer VRAM_PADDR_END = some ⟨Backing.vram, VRAM_SIZE⟩ := by
    simp only [MemorySystem.GetPhysicalPointer, VRAM_PADDR, VRAM_PADDR_END, VRAM_SIZE,
      DSP_RAM_PADDR, DSP_RAM_PADDR_END, DSP_RAM_SIZE, FCRAM_PADDR, FCRAM_N3DS_PADDR_END,
      FCRAM_N3DS_SIZE, N3DS_EXTRA_RAM_PADDR, N3DS_EXTRA_RAM_PADDR_END, N3DS_EXTRA_RAM_SIZE]
    norm_num
  have h2 : s.GetPhysicalPointer DSP_RAM_PADDR_END = some ⟨Backing.dspRam, DSP_RAM_SIZE⟩ := by
    simp only [MemorySystem.GetPhysicalPointer, VRAM_PADDR, VRAM_PADDR_END, VRAM_SIZE,
      DSP_RAM_PADDR, DSP_RAM_PADDR_END, DSP_RAM_SIZE, FCRAM_PADDR, FCRAM_N3DS_PADDR_END,
      FCRAM_N3DS_SIZE, N3DS_EXTRA_RAM_PADDR, N3DS_EXTRA_RAM_PADDR_END, N3DS_EXTRA_RAM_SIZE,
      hdsp]
    norm_num
  have h3 : s.GetPhysicalPointer FCRAM_N3DS_PADDR_END = some ⟨Backing.fcram, FCRAM_N3DS_SIZE⟩ := by
    simp only [MemorySystem.GetPhysicalPointer, VRAM_PADDR, VRAM_PADDR_END, VRAM_SIZE,
      DSP_RAM_PADDR, DSP_RAM_PADDR_END, DSP_RAM_SIZE, FCRAM_PADDR, FCRAM_N3DS_PADDR_END,
      FCRAM_N3DS_SIZE, N3DS_EXTRA_RAM_PADDR, N3DS_EXTRA_RAM_PADDR_END, N3DS_EXTRA_RAM_SIZE]
    norm_num
  have h4 : s.GetPhysicalPointer N3DS_EXTRA_RAM_PADDR_END =
      some ⟨Backing.n3dsExtraRam, N3DS_EXTRA_RAM_SIZE⟩ := by
    simp only [MemorySystem.GetPhysicalPointer, VRAM_PADDR, VRAM_PADDR_END, VRAM_SIZE,
      DSP_RAM_PADDR, DSP_RAM_PADDR_END, DSP_RAM_SIZE, FCRAM_PADDR, FCRAM_N3DS_PADDR_END,
      FCRAM_N3DS_SIZE, N3DS_EXTRA_RAM_PADDR, N3DS_EXTRA_RAM_PADDR_END, N3DS_EXTRA_RAM_SIZE]
    norm_num
  refine ⟨h1, h2, h3, h4, ?_, ?_, ?_, ?_⟩ <;>
    simp [MemorySystem.IsValidPhysicalAddress, h1, h2, h3, h4]

/-- A fully concrete initial memory system used by the witnesses: zeroed
backing stores, no cached pages, an all-unmapped table heap, no
registered tables, the DSP not yet injected. -/
def initState : MemorySystem :=
  { mem := fun _ _ => 0
    cache_marker := ⟨fun _ => false, fun _ => false, fun _ => false⟩
    tables := fun _ => ⟨fun _ => none, fun _ => PageType.Unmapped⟩
    page_table_list := []
    currentTable := 0
    dspSet := false }

/-- Witness for C10: the boundary behavior at a concrete state with the
DSP injected. -/
theorem getPhysicalPointer_end_inclusive_witness :
    ({ initState with dspSet := true } : MemorySystem).dspSet = true ∧
    ({ initState with dspSet := true } : MemorySystem).IsValidPhysicalAddress VRAM_PADDR_END
      = true :=
  ⟨rfl, (getPhysicalPointer_end_inclusive { initState with dspSet := true } rfl).2.2.2.2.1⟩

/-! ### C9: little-endian layout of the 32-bit accessors -/

theorem HostPtr.add_ne (p : HostPtr) (a b : Nat) (h : a ≠ b) : p.add a ≠ p.add b := by
  simp only [HostPtr.add, ne_eq, HostPtr.mk.injEq, not_and]
  intro _
  omega

theorem HostPtr.self_ne_add (q : HostPtr) (n : Nat) (h : n ≠ 0) : q ≠ q.add n := by
  cases q
  simp only [HostPtr.add, ne_eq, HostPtr.mk.injEq, not_and]
  intro _
  omega

theorem writeBytesLE_four (m : Mem) (q : HostPtr) (x : Nat) :
    writeBytesLE m q x 4 =
      (((m.write q x).write (q.add 1) (x / 256)).write (q.add 2) (x / 65536)).write
        (q.add 3) (x / 16777216) := by
  show (((m.write q x).write (q.add 1) (x / 256)).write ((q.add 1).add 1)
      (x / 256 / 256)).write (((q.add 1).add 1).add 1) (x / 256 / 256 / 256) = _
  rw [HostPtr.add_add, HostPtr.add_add]
  norm_num [Nat.div_div_eq_div_mul]

theorem read_writeBytesLE_four_0 (m : Mem) (q : HostPtr) (x : Nat) :
    (writeBytesLE m q x 4).read q = x % 256 := by
  rw [writeBytesLE_four, Mem.read_write_ne _ _ _ _ (HostPtr.self_ne_add q 3 (by omega)),
    Mem.read_write_ne _ _ _ _ (HostPtr.self_ne_add q 2 (by omega)),
    Mem.read_write_ne _ _ _ _ (HostPtr.self_ne_add q 1 (by omega)), Mem.read_write_self]

theorem read_writeBytesLE_four_1 (m : Mem) (q : HostPtr) (x : Nat) :
    (writeBytesLE m q x 4).read (q.add 1) = x / 256 % 256 := by
  rw [writeBytesLE_four, Mem.read_write_ne _ _ _ _ (HostPtr.add_ne q 1 3 (by omega)),
    Mem.read_write_ne _ _ _ _ (HostPtr.add_ne q 1 2 (by omega)), Mem.read_write_self]

theorem read_writeBytesLE_four_2 (m : Mem) (q : HostPtr) (x : Nat) :
    (writeBytesLE m q x 4).read (q.add 2) = x / 65536 % 256 := by
  rw [writeBytesLE_four, Mem.read_write_ne _ _ _ _ (HostPtr.add_ne q 2 3 (by omega)),
    Mem.read_write_self]

theorem read_writeBytesLE_four_3 (m : Mem) (q : HostPtr) (x : Nat) :
    (writeBytesLE m q x 4).read (q.add 3) = x / 16777216 % 256 := by
  rw [writeBytesLE_four, Mem.read_write_self]

theorem readBytesLE_four (m : Mem) (q : HostPtr) :
    readBytesLE m q 4 = m.read q + 256 * m.read (q.add 1) + 65536 * m.read (q.add 2) +
      16777216 * m.read (q.add 3) := by
  show m.read q + 256 * (m.read (q.add 1) + 256 * (m.read ((q.add 1).add 1) +
      256 * (m.read (((q.add 1).add 1).add 1) + 256 * 0))) = _
  rw [HostPtr.add_add, HostPtr.add_add]
  norm_num
  ring

/-- C9: on a page with a (fast-path) pointer, `Write32` stores its four
bytes least-significant first at `v .. v+3`, and `Read32` assembles its
result little-endian from the four bytes at `v .. v+3`.  The witness
instantiates `x = 0x11223344` and checks the stored bytes are
`44 33 22 11`. -/
theorem write32_read32_little_endian (s : MemorySystem) (vaddr x : Nat) (p : HostPtr)
    (hp : (s.tables s.currentTable).pointers (vaddr / PAGE_SIZE) = some p) :
    (∃ m2 : Mem, s.Write 4 vaddr x = some ({ s with mem := m2 }, []) ∧
      m2.read (p.add (vaddr % PAGE_SIZE)) = x % 256 ∧
      m2.read (p.add (vaddr % PAGE_SIZE + 1)) = x / 256 % 256 ∧
      m2.read (p.add (vaddr % PAGE_SIZE + 2)) = x / 65536 % 256 ∧
      m2.read (p.add (vaddr % PAGE_SIZE + 3)) = x / 16777216 % 256) ∧
    s.Read 4 vaddr = some (
      s.mem.read (p.add (vaddr % PAGE_SIZE)) +
        256 * s.mem.read (p.add (vaddr % PAGE_SIZE + 1)) +
        65536 * s.mem.read (p.add (vaddr % PAGE_SIZE + 2)) +
        16777216 * s.mem.read (p.add (vaddr % PAGE_SIZE + 3)), []) := by
  have hadd : ∀ i : Nat, p.add (vaddr % PAGE_SIZE + i) = (p.add (vaddr % PAGE_SIZE)).add i :=
    fun i => (HostPtr.add_add p (vaddr % PAGE_SIZE) i).symm
  have hW : s.Write 4 vaddr x =
      some ({ s with mem := writeBytesLE s.mem (p.add (vaddr % PAGE_SIZE)) x 4 }, []) := by
    simp only [MemorySystem.Write, hp]
  have hR : s.Read 4 vaddr = some (readBytesLE s.mem (p.add (vaddr % PAGE_SIZE)) 4, []) := by
    simp only [MemorySystem.Read, hp]
  refine ⟨⟨_, hW, ?_, ?_, ?_, ?_⟩, ?_⟩
  · exact read_writeBytesLE_four_0 s.mem (p.add (vaddr % PAGE_SIZE)) x
  · rw [hadd 1]
    exact read_writeBytesLE_four_1 s.mem (p.add (vaddr % PAGE_SIZE)) x
  · rw [hadd 2]
    exact read_writeBytesLE_four_2 s.mem (p.add (vaddr % PAGE_SIZE)) x
  · rw [hadd 3]
    exact read_writeBytesLE_four_3 s.mem (p.add (vaddr % PAGE_SIZE)) x
  · rw [hR, readBytesLE_four]
    simp only [hadd]

/-- A concrete state mapping guest page 1 (addresses `0x1000 .. 0x1FFF`)
to an external host buffer, used by the fast-path witnesses. -/
def c9State : MemorySystem :=
  { initState with
      tables := fun _ =>
        ⟨fun i => if i = 1 then some ⟨Backing.ext 0, 0⟩ else none,
          fun i => if i = 1 then PageType.Memory else PageType.Unmapped⟩ }

/-- Witness for C9: writing `0x11223344` at `0x1000` leaves the bytes
`44 33 22 11` at offsets 0..3 of the page's host buffer. -/
theorem write32_read32_little_endian_witness :
    ((c9State.tables c9State.currentTable).pointers (4096 / PAGE_SIZE) =
      some ⟨Backing.ext 0, 0⟩) ∧
    (∃ m2 : Mem, c9State.Write 4 4096 0x11223344 = some ({ c9State with mem := m2 }, []) ∧
      m2.read (HostPtr.add ⟨Backing.ext 0, 0⟩ (4096 % PAGE_SIZE)) = 0x44 ∧
      m2.read (HostPtr.add ⟨Backing.ext 0, 0⟩ (4096 % PAGE_SIZE + 1)) = 0x33 ∧
      m2.read (HostPtr.add ⟨Backing.ext 0, 0⟩ (4096 % PAGE_SIZE + 2)) = 0x22 ∧
      m2.read (HostPtr.add ⟨Backing.ext 0, 0⟩ (4096 % PAGE_SIZE + 3)) = 0x11) :=
  ⟨rfl, by
    obtain ⟨⟨m2, hw, h0, h1, h2, h3⟩, _⟩ :=
      write32_read32_little_endian c9State 4096 0x11223344 ⟨Backing.ext 0, 0⟩ rfl
    exact ⟨m2, hw, by rw [h0], by rw [h1], by rw [h2], by rw [h3]⟩⟩

/-! ### C2: unmapped accesses are recoverable -/

theorem page_of_offset (pI off : Nat) (h : off < PAGE_SIZE) :
    (pI * PAGE_SIZE + off) / PAGE_SIZE = pI := by
  simp only [PAGE_SIZE] at h ⊢
  omega

theorem readBytes_length (m : Mem) (p : HostPtr) (n : Nat) : (readBytes m p n).length = n := by
  induction n generalizing p with
  | zero => rfl
  | succ k ih => simp [readBytes, ih]

theorem ReadBlockStep_length (mem : Mem) (t : PageTable) (pI pO c : Nat) (bytes : List Nat)
    (evs : List Event) (h : ReadBlockStep mem t pI pO c = some (bytes, evs)) :
    bytes.length = c := by
  unfold ReadBlockStep at h
  rcases ha : t.attributes pI with _ | _ | _ | _ <;> simp only [ha] at h
  · simp only [Option.some.injEq, Prod.mk.injEq] at h
    rw [← h.1, List.length_replicate]
  · rcases hptr : t.pointers pI with _ | p <;> simp only [hptr] at h
    · exact absurd h (by simp)
    · simp only [Option.some.injEq, Prod.mk.injEq] at h
      rw [← h.1, readBytes_length]
  · exact absurd h (by simp)
  · rcases hg : GetPointerForRasterizerCache (pI * PAGE_SIZE + pO) with _ | p <;>
      simp only [hg] at h
    · exact absurd h (by simp)
    · simp only [Option.some.injEq, Prod.mk.injEq] at h
      rw [← h.1, readBytes_length]

theorem ReadBlockLoop_unmapped_zero (fuel : Nat) :
    ∀ (pI pO rem : Nat) (mem : Mem) (t : PageTable) (out : List Nat) (evs : List Event),
      pO < PAGE_SIZE →
      ReadBlockLoop mem t fuel pI pO rem = some (out, evs) →
      out.length = rem ∧
      ∀ i, i < rem → t.attributes ((pI * PAGE_SIZE + pO + i) / PAGE_SIZE) = PageType.Unmapped →
        out.getD i 1 = 0 := by
  induction fuel with
  | zero =>
    intro pI pO rem mem t out evs hpo h
    simp only [ReadBlockLoop] at h
    rcases Nat.eq_zero_or_pos rem with hrem | hrem
    · subst hrem
      rw [if_pos rfl] at h
      simp only [Option.some.injEq, Prod.mk.injEq] at h
      refine ⟨by rw [← h.1]; rfl, fun i hi => absurd hi (by omega)⟩
    · rw [if_neg (by omega)] at h
      exact absurd h (by simp)
  | succ fuel ih =>
    intro pI pO rem mem t out evs hpo h
    simp only [ReadBlockLoop] at h
    rcases Nat.eq_zero_or_pos rem with hrem | hrem
    · subst hrem
      rw [if_pos rfl] at h
      simp only [Option.some.injEq, Prod.mk.injEq] at h
      refine ⟨by rw [← h.1]; rfl, fun i hi => absurd hi (by omega)⟩
    · rw [if_neg (by omega)] at h
      rcases hstep : ReadBlockStep mem t pI pO (min (PAGE_SIZE - pO) rem) with _ | ⟨bytes, evs1⟩ <;>
        rw [hstep] at h
      · exact absurd h (by simp)
      · rcases hrec : ReadBlockLoop mem t fuel (pI + 1) 0 (rem - min (PAGE_SIZE - pO) rem) with
          _ | ⟨bytes2, evs2⟩ <;> rw [hrec] at h
        · exact absurd h (by simp)
        · simp only [Option.some.injEq, Prod.mk.injEq] at h
          have hblen : bytes.length = min (PAGE_SIZE - pO) rem :=
            ReadBlockStep_length mem t pI pO _ bytes evs1 hstep
          have hih := ih (pI + 1) 0 (rem - min (PAGE_SIZE - pO) rem) mem t bytes2 evs2
            (by simp [PAGE_SIZE]) hrec
          constructor
          · rw [← h.1, List.length_append, hblen, hih.1]
            omega
          · intro i hi hattr
            rw [← h.1]
            by_cases hic : i < min (PAGE_SIZE - pO) rem
            · rw [List.getD_append _ _ _ _ (by omega)]
              have hpage : (pI * PAGE_SIZE + pO + i) / PAGE_SIZE = pI := by
                have : pO + i < PAGE_SIZE := by
                  simp only [PAGE_SIZE] at *
                  omega
                rw [Nat.add_assoc, page_of_offset pI (pO + i) this]
              rw [hpage] at hattr
              unfold ReadBlockStep at hstep
              rw [hattr] at hstep
              simp only [Option.some.injEq, Prod.mk.injEq] at hstep
              rw [← hstep.1, List.getD_eq_getElem _ _ (by rw [List.length_replicate]; omega),
                List.getElem_replicate]
            · have hcopy : min (PAGE_SIZE - pO) rem = PAGE_SIZE - pO := by omega
              rw [List.getD_append_right _ _ _ _ (by omega)]
              have := hih.2 (i - bytes.length) (by omega)
              rw [hblen] at this ⊢
              apply this
              have : (pI + 1) * PAGE_SIZE + 0 + (i - min (PAGE_SIZE - pO) rem) =
                  pI * PAGE_SIZE + pO + i := by
                have hps : 0 < PAGE_SIZE := by simp [PAGE_SIZE]
                rw [Nat.add_mul]
                omega
              rw [this]
              exact hattr

theorem ReadBlockLoop_all_unmapped (fuel : Nat) :
    ∀ (pI pO rem : Nat) (mem : Mem) (t : PageTable),
      pO < PAGE_SIZE → rem ≤ fuel →
      (∀ i, i < rem →
        t.attributes ((pI * PAGE_SIZE + pO + i) / PAGE_SIZE) = PageType.Unmapped) →
      ∃ out evs, ReadBlockLoop mem t fuel pI pO rem = some (out, evs) := by
  induction fuel with
  | zero =>
    intro pI pO rem mem t hpo hle _
    refine ⟨[], [], ?_⟩
    simp only [ReadBlockLoop]
    rw [if_pos (by omega)]
  | succ fuel ih =>
    intro pI pO rem mem t hpo hle hun
    rcases Nat.eq_zero_or_pos rem with hrem | hrem
    · subst hrem
      exact ⟨[], [], by simp [ReadBlockLoop]⟩
    · have hattr : t.attributes pI = PageType.Unmapped := by
        have := hun 0 (by omega)
        rwa [Nat.add_zero, page_of_offset pI pO hpo] at this
      have hstep : ReadBlockStep mem t pI pO (min (PAGE_SIZE - pO) rem) =
          some (List.replicate (min (PAGE_SIZE - pO) rem) 0, [Event.logError]) := by
        unfold ReadBlockStep
        rw [hattr]
      have hrec : ∃ out evs,
          ReadBlockLoop mem t fuel (pI + 1) 0 (rem - min (PAGE_SIZE - pO) rem) =
            some (out, evs) := by
        apply ih (pI + 1) 0 (rem - min (PAGE_SIZE - pO) rem) mem t (by simp [PAGE_SIZE])
          (by omega)
        intro i hi
        have hcopy : min (PAGE_SIZE - pO) rem = PAGE_SIZE - pO := by omega
        have hpos : (pI + 1) * PAGE_SIZE + 0 + i =
            pI * PAGE_SIZE + pO + (min (PAGE_SIZE - pO) rem + i) := by
          rw [Nat.add_mul]
          omega
        rw [hpos]
        exact hun (min (PAGE_SIZE - pO) rem + i) (by omega)
      obtain ⟨out, evs, hrec⟩ := hrec
      refine ⟨List.replicate (min (PAGE_SIZE - pO) rem) 0 ++ out, [Event.logError] ++ evs, ?_⟩
      simp only [ReadBlockLoop]
      rw [if_neg (by omega), hstep, hrec]

/-- C2: on a page whose attribute is `Unmapped` (and whose pointer is
null, which invariant P3 guarantees), `Read` returns 0 with one
error-level log, `Write` returns the state unchanged with one error-level
log, and `ReadBlock` writes a zero into the destination buffer at every
offset that falls on an unmapped page; a `ReadBlock` touching only
unmapped pages completes without aborting. -/
theorem unmapped_access_behavior :
    (∀ (s : MemorySystem) (w vaddr : Nat),
      (s.tables s.currentTable).attributes (vaddr / PAGE_SIZE) = PageType.Unmapped →
      (s.tables s.currentTable).pointers (vaddr / PAGE_SIZE) = none →
      s.Read w vaddr = some (0, [Event.logError])) ∧
    (∀ (s : MemorySystem) (w vaddr data : Nat),
      (s.tables s.currentTable).attributes (vaddr / PAGE_SIZE) = PageType.Unmapped →
      (s.tables s.currentTable).pointers (vaddr / PAGE_SIZE) = none →
      s.Write w vaddr data = some (s, [Event.logError])) ∧
    (∀ (mem : Mem) (t : PageTable) (src size : Nat) (out : List Nat) (evs : List Event),
      ReadBlock mem t src size = some (out, evs) →
      out.length = size ∧
      ∀ i, i < size → t.attributes ((src + i) / PAGE_SIZE) = PageType.Unmapped →
        out.getD i 1 = 0) ∧
    (∀ (mem : Mem) (t : PageTable) (src size : Nat),
      (∀ i, i < size → t.attributes ((src + i) / PAGE_SIZE) = PageType.Unmapped) →
      (ReadBlock mem t src size).isSome = true) := by
  have hpos : ∀ src i : Nat, src / PAGE_SIZE * PAGE_SIZE + src % PAGE_SIZE + i = src + i := by
    intro src i
    simp only [PAGE_SIZE]
    omega
  refine ⟨?_, ?_, ?_, ?_⟩
  · intro s w vaddr hattr hptr
    simp only [MemorySystem.Read, hptr, hattr]
  · intro s w vaddr data hattr hptr
    simp only [MemorySystem.Write, hptr, hattr]
  · intro mem t src size out evs h
    have := ReadBlockLoop_unmapped_zero size (src / PAGE_SIZE) (src % PAGE_SIZE) size mem t
      out evs (Nat.mod_lt _ (by simp [PAGE_SIZE])) h
    refine ⟨this.1, fun i hi hattr => this.2 i hi ?_⟩
    rw [hpos]
    exact hattr
  · intro mem t src size hun
    obtain ⟨out, evs, h⟩ := ReadBlockLoop_all_unmapped size (src / PAGE_SIZE) (src % PAGE_SIZE)
      size mem t (Nat.mod_lt _ (by simp [PAGE_SIZE])) (Nat.le_refl _)
      (fun i hi => by rw [hpos]; exact hun i hi)
    rw [ReadBlock, h]
    rfl

/-- Witness for C2: in a state with no mappings at all, `Read32` of
`0x00400000` yields 0 with an error log, `Write32` there is dropped, and a
4-byte `ReadBlock` yields four zero bytes. -/
theorem unmapped_access_behavior_witness :
    ((initState.tables initState.currentTable).attributes (0x00400000 / PAGE_SIZE) =
      PageType.Unmapped) ∧
    ((initState.tables initState.currentTable).pointers (0x00400000 / PAGE_SIZE) = none) ∧
    initState.Read 4 0x00400000 = some (0, [Event.logError]) ∧
    initState.Write 4 0x00400000 0xDEADBEEF = some (initState, [Event.logError]) ∧
    (ReadBlock initState.mem (initState.tables 0) 0x00400000 4).isSome = true :=
  ⟨rfl, rfl,
    unmapped_access_behavior.1 initState 4 0x00400000 rfl rfl,
    unmapped_access_behavior.2.1 initState 4 0x00400000 0xDEADBEEF rfl rfl,
    unmapped_access_behavior.2.2.2 initState.mem (initState.tables 0) 0x00400000 4
      (fun i _ => rfl)⟩

/-! ### Characterization of the MapPages loop (used by C1 and C7) -/

theorem MapPagesWrite_other (marker : RasterizerCacheMarker) (t : PageTable) (base : Nat)
    (memory : Option HostPtr) (type : PageType) (j : Nat) (hj : j ≠ base) :
    (MapPagesWrite marker t base memory type).attributes j = t.attributes j ∧
    (MapPagesWrite marker t base memory type).pointers j = t.pointers j := by
  unfold MapPagesWrite
  split <;> simp [hj]

theorem MapPagesWrite_self_cached (marker : RasterizerCacheMarker) (t : PageTable) (base : Nat)
    (memory : Option HostPtr) (type : PageType)
    (h : type = PageType.Memory ∧ marker.IsCached (base * PAGE_SIZE) = true) :
    (MapPagesWrite marker t base memory type).attributes base =
      PageType.RasterizerCachedMemory ∧
    (MapPagesWrite marker t base memory type).pointers base = none := by
  unfold MapPagesWrite
  rw [if_pos h]
  simp

theorem MapPagesWrite_self_uncached (marker : RasterizerCacheMarker) (t : PageTable)
    (base : Nat) (memory : Option HostPtr) (type : PageType)
    (h : ¬(type = PageType.Memory ∧ marker.IsCached (base * PAGE_SIZE) = true)) :
    (MapPagesWrite marker t base memory type).attributes base = type ∧
    (MapPagesWrite marker t base memory type).pointers base = memory := by
  unfold MapPagesWrite
  rw [if_neg h]
  simp

theorem optionMapAdd (memory : Option HostPtr) (a b c : Nat) (h : a + b = c) :
    (memory.map (fun p => p.add a)).map (fun p => p.add b) =
      memory.map (fun p => p.add c) := by
  cases memory <;> simp [HostPtr.add_add, h]

theorem MapPagesLoop_char (n : Nat) :
    ∀ (marker : RasterizerCacheMarker) (t t2 : PageTable) (base : Nat)
      (memory : Option HostPtr) (type : PageType),
      MapPagesLoop marker t base n memory type = some t2 →
      (∀ j, j < base ∨ base + n ≤ j →
        t2.attributes j = t.attributes j ∧ t2.pointers j = t.pointers j) ∧
      (∀ j, base ≤ j → j < base + n →
        ((type = PageType.Memory ∧ marker.IsCached (j * PAGE_SIZE) = true) →
          t2.attributes j = PageType.RasterizerCachedMemory ∧ t2.pointers j = none) ∧
        (¬(type = PageType.Memory ∧ marker.IsCached (j * PAGE_SIZE) = true) →
          t2.attributes j = type ∧
          t2.pointers j = memory.map (fun p => p.add ((j - base) * PAGE_SIZE)))) := by
  induction n with
  | zero =>
    intro marker t t2 base memory type h
    simp only [MapPagesLoop, Option.some.injEq] at h
    subst h
    exact ⟨fun j _ => ⟨rfl, rfl⟩, fun j h1 h2 => absurd h2 (by omega)⟩
  | succ n ih =>
    intro marker t t2 base memory type h
    simp only [MapPagesLoop] at h
    by_cases hbase : base < PAGE_TABLE_NUM_ENTRIES
    · rw [if_pos hbase] at h
      obtain ⟨hout, hin⟩ := ih marker _ t2 (base + 1) _ type h
      constructor
      · intro j hj
        have h1 := hout j (by omega)
        have h2 := MapPagesWrite_other marker t base memory type j (by omega)
        exact ⟨h1.1.trans h2.1, h1.2.trans h2.2⟩
      · intro j hj1 hj2
        rcases Nat.eq_or_lt_of_le hj1 with hj | hj
        · subst hj
          have h1 := hout base (by omega)
          constructor
          · intro hc
            obtain ⟨ha, hp⟩ := MapPagesWrite_self_cached marker t base memory type hc
            exact ⟨h1.1.trans ha, h1.2.trans hp⟩
          · intro hc
            obtain ⟨ha, hp⟩ := MapPagesWrite_self_uncached marker t base memory type hc
            refine ⟨h1.1.trans ha, ?_⟩
            rw [h1.2, hp, Nat.sub_self]
            cases memory <;> simp [HostPtr.add_zero]
        · have h2 := hin j (by omega) (by omega)
          refine ⟨h2.1, fun hc => ?_⟩
          obtain ⟨ha, hp⟩ := h2.2 hc
          refine ⟨ha, hp.trans (optionMapAdd _ _ _ _ ?_)⟩
          simp only [PAGE_SIZE]
          omega
    · rw [if_neg hbase] at h
      exact absurd h (by simp)

/-! ### C7: late-map inheritance of the cached attribute -/

/-- C7: if the cache marker reports a page as cached, a later
`MapMemoryRegion` over that page (into any table, a fresh one in
particular) produces attribute `RasterizerCachedMemory` with a null
pointer instead of `Memory` with the supplied host pointer. -/
theorem late_map_inheritance (s : MemorySystem) (tid base size : Nat) (target : HostPtr)
    (page : Nat) (r : MemorySystem × List Event)
    (hmark : s.cache_marker.IsCached (page * PAGE_SIZE) = true)
    (hlo : base ≤ page * PAGE_SIZE) (hhi : page * PAGE_SIZE < base + size)
    (hmap : s.MapMemoryRegion tid base size (some target) = some r) :
    (r.1.tables tid).attributes page = PageType.RasterizerCachedMemory ∧
    (r.1.tables tid).pointers page = none := by
  unfold MemorySystem.MapMemoryRegion at hmap
  by_cases halign : size % PAGE_SIZE = 0 ∧ base % PAGE_SIZE = 0
  · rw [if_pos halign] at hmap
    unfold MemorySystem.MapPages at hmap
    rcases hloop : MapPagesLoop s.cache_marker (s.tables tid) (base / PAGE_SIZE)
        (size / PAGE_SIZE) (some target) PageType.Memory with _ | t2
    · rw [hloop] at hmap
      exact absurd hmap (by simp)
    · rw [hloop] at hmap
      simp only [Option.some.injEq] at hmap
      obtain ⟨_, hin⟩ := MapPagesLoop_char (size / PAGE_SIZE) s.cache_marker (s.tables tid) t2
        (base / PAGE_SIZE) (some target) PageType.Memory hloop
      have hrange : base / PAGE_SIZE ≤ page ∧ page < base / PAGE_SIZE + size / PAGE_SIZE := by
        obtain ⟨hs, hb⟩ := halign
        simp only [PAGE_SIZE] at *
        omega
      have := (hin page hrange.1 hrange.2).1 ⟨rfl, hmark⟩
      rw [← hmap]
      simpa using this
  · rw [if_neg halign] at hmap
    exact absurd hmap (by simp)

/-- A marker state with the cached bit set for VRAM page 0, and the
corresponding memory-system state, for the C7 witness. -/
def c7State : MemorySystem :=
  { initState with
      cache_marker := ⟨fun i => i == 0, fun _ => false, fun _ => false⟩ }

/-- Witness for C7: with VRAM page 0 marked cached, mapping a fresh table
over `VRAM_VADDR` yields `RasterizerCachedMemory` with a null pointer. -/
theorem late_map_inheritance_witness :
    c7State.cache_marker.IsCached (VRAM_VADDR / PAGE_SIZE * PAGE_SIZE) = true ∧
    VRAM_VADDR ≤ VRAM_VADDR / PAGE_SIZE * PAGE_SIZE ∧
    VRAM_VADDR / PAGE_SIZE * PAGE_SIZE < VRAM_VADDR + PAGE_SIZE ∧
    ∃ r, c7State.MapMemoryRegion 1 VRAM_VADDR PAGE_SIZE (some ⟨Backing.vram, 0⟩) = some r ∧
      (r.1.tables 1).attributes (VRAM_VADDR / PAGE_SIZE) = PageType.RasterizerCachedMemory ∧
      (r.1.tables 1).pointers (VRAM_VADDR / PAGE_SIZE) = none := by
  refine ⟨by decide, by decide, by decide, ?_⟩
  have hsome : (c7State.MapMemoryRegion 1 VRAM_VADDR PAGE_SIZE
      (some ⟨Backing.vram, 0⟩)).isSome = true := rfl
  obtain ⟨r, hr⟩ := Option.isSome_iff_exists.mp hsome
  exact ⟨r, hr, late_map_inheritance c7State 1 VRAM_VADDR PAGE_SIZE ⟨Backing.vram, 0⟩
    (VRAM_VADDR / PAGE_SIZE) r (by decide) (by decide) (by decide) hr⟩

/-! ### C1: the page-table invariants P1, P2, P3 -/

/-- The three page-table invariants of the spec: P1 (`Memory` implies a
non-null pointer), P2 (`RasterizerCachedMemory` implies a null pointer),
P3 (`Unmapped` implies a null pointer). -/
def PageTableInvariant (t : PageTable) : Prop :=
  ∀ i, (t.attributes i = PageType.Memory → t.pointers i ≠ none) ∧
    (t.attributes i = PageType.RasterizerCachedMemory → t.pointers i = none) ∧
    (t.attributes i = PageType.Unmapped → t.pointers i = none)

/-- The invariants hold for every table of the table heap. -/
def AllTablesInvariant (s : MemorySystem) : Prop :=
  ∀ id, PageTableInvariant (s.tables id)

theorem MapPagesLoop_inv (marker : RasterizerCacheMarker) (t t2 : PageTable) (base n : Nat)
    (memory : Option HostPtr) (type : PageType)
    (h : MapPagesLoop marker t base n memory type = some t2)
    (hinv : PageTableInvariant t)
    (hok : (type = PageType.Memory ∧ memory ≠ none) ∨
      (type = PageType.Unmapped ∧ memory = none)) :
    PageTableInvariant t2 := by
  obtain ⟨hout, hin⟩ := MapPagesLoop_char n marker t t2 base memory type h
  intro j
  by_cases hj : base ≤ j ∧ j < base + n
  · obtain ⟨hcached, huncached⟩ := hin j hj.1 hj.2
    by_cases hc : type = PageType.Memory ∧ marker.IsCached (j * PAGE_SIZE) = true
    · obtain ⟨ha, hp⟩ := hcached hc
      rw [ha, hp]
      exact ⟨fun hx => absurd hx (by simp), fun _ => rfl, fun hx => absurd hx (by simp)⟩
    · obtain ⟨ha, hp⟩ := huncached hc
      rcases hok with ⟨htype, hmem⟩ | ⟨htype, hmem⟩
      · subst htype
        rcases hmemv : memory with _ | p
        · exact absurd hmemv hmem
        · rw [ha, hp, hmemv]
          exact ⟨fun _ => by simp, fun hx => absurd hx (by simp), fun hx => absurd hx (by simp)⟩
      · subst htype
        subst hmem
        rw [ha, hp]
        exact ⟨fun hx => absurd hx (by simp), fun hx => absurd hx (by simp), fun _ => rfl⟩
  · have := hout j (by omega)
    rw [this.1, this.2]
    exact hinv j

theorem MapPages_inv (s : MemorySystem) (tid base size : Nat) (memory : Option HostPtr)
    (type : PageType) (r : MemorySystem × List Event)
    (h : s.MapPages tid base size memory type = some r)
    (hinv : AllTablesInvariant s)
    (hok : (type = PageType.Memory ∧ memory ≠ none) ∨
      (type = PageType.Unmapped ∧ memory = none)) :
    AllTablesInvariant r.1 := by
  unfold MemorySystem.MapPages at h
  rcases hloop : MapPagesLoop s.cache_marker (s.tables tid) base size memory type with _ | t2 <;>
    rw [hloop] at h
  · exact absurd h (by simp)
  · simp only [Option.some.injEq] at h
    rw [← h]
    intro id
    by_cases hid : id = tid
    · subst hid
      simp only [if_pos rfl]
      exact MapPagesLoop_inv s.cache_marker (s.tables id) t2 base size memory type hloop
        (hinv id) hok
    · simp only [hid, if_neg]
      simpa using hinv id

theorem applyMark_true_unfold (v : Nat) (t : PageTable) :
    applyMark true v t =
      match t.attributes (v / PAGE_SIZE) with
      | PageType.Unmapped => some t
      | PageType.Memory =>
        some { attributes := fun i => if i = v / PAGE_SIZE then PageType.RasterizerCachedMemory
                                      else t.attributes i
               pointers := fun i => if i = v / PAGE_SIZE then none else t.pointers i }
      | _ => none := rfl

theorem applyMark_false_unfold (v : Nat) (t : PageTable) :
    applyMark false v t =
      match t.attributes (v / PAGE_SIZE) with
      | PageType.Unmapped => some t
      | PageType.RasterizerCachedMemory =>
        match GetPointerForRasterizerCache (v - v % PAGE_SIZE) with
        | some p =>
          some { attributes := fun i => if i = v / PAGE_SIZE then PageType.Memory
                                        else t.attributes i
                 pointers := fun i => if i = v / PAGE_SIZE then some p else t.pointers i }
        | none => none
      | _ => none := rfl

/-- Full elimination principle for one attribute transition of
`RasterizerMarkRegionCached`: what a successful `applyMark` did to the
table, including which prior attributes could not have aborted. -/
theorem applyMark_char (cached : Bool) (v : Nat) (t t2 : PageTable)
    (h : applyMark cached v t = some t2) :
    (∀ j, j ≠ v / PAGE_SIZE →
      t2.attributes j = t.attributes j ∧ t2.pointers j = t.pointers j) ∧
    (t.attributes (v / PAGE_SIZE) = PageType.Unmapped → t2 = t) ∧
    (cached = true →
      (t.attributes (v / PAGE_SIZE) = PageType.Unmapped ∨
        t.attributes (v / PAGE_SIZE) = PageType.Memory) ∧
      (t.attributes (v / PAGE_SIZE) = PageType.Memory →
        t2.attributes (v / PAGE_SIZE) = PageType.RasterizerCachedMemory ∧
        t2.pointers (v / PAGE_SIZE) = none)) ∧
    (cached = false →
      (t.attributes (v / PAGE_SIZE) = PageType.Unmapped ∨
        t.attributes (v / PAGE_SIZE) = PageType.RasterizerCachedMemory) ∧
      (t.attributes (v / PAGE_SIZE) = PageType.RasterizerCachedMemory →
        t2.attributes (v / PAGE_SIZE) = PageType.Memory ∧
        t2.pointers (v / PAGE_SIZE) =
          GetPointerForRasterizerCache (v - v % PAGE_SIZE))) := by
  cases cached with
  | true =>
    rw [applyMark_true_unfold] at h
    rcases ha : t.attributes (v / PAGE_SIZE) with _ | _ | _ | _ <;> simp only [ha] at h
    · simp only [Option.some.injEq] at h
      subst h
      exact ⟨fun j _ => ⟨rfl, rfl⟩, fun _ => rfl,
        fun _ => ⟨Or.inl rfl, fun hm => absurd hm (by simp)⟩,
        fun hf => absurd hf (by simp)⟩
    · simp only [Option.some.injEq] at h
      subst h
      exact ⟨fun j hj => by simp [hj], fun hu => absurd hu (by simp),
        fun _ => ⟨Or.inr rfl, fun _ => by simp⟩, fun hf => absurd hf (by simp)⟩
    · exact absurd h (by simp)
    · exact absurd h (by simp)
  | false =>
    rw [applyMark_false_unfold] at h
    rcases ha : t.attributes (v / PAGE_SIZE) with _ | _ | _ | _ <;> simp only [ha] at h
    · simp only [Option.some.injEq] at h
      subst h
      exact ⟨fun j _ => ⟨rfl, rfl⟩, fun _ => rfl, fun ht => absurd ht (by simp),
        fun _ => ⟨Or.inl rfl, fun hm => absurd hm (by simp)⟩⟩
    · exact absurd h (by simp)
    · exact absurd h (by simp)
    · rcases hg : GetPointerForRasterizerCache (v - v % PAGE_SIZE) with _ | p <;>
        simp only [hg] at h
      · exact absurd h (by simp)
      · simp only [Option.some.injEq] at h
        subst h
        exact ⟨fun j hj => by simp [hj], fun hu => absurd hu (by simp),
          fun ht => absurd ht (by simp), fun _ => ⟨Or.inr rfl, fun _ => by simp⟩⟩

/-- Applying the same mark transition twice can only succeed when the
first application already left the table unchanged. -/
theorem applyMark_twice (cached : Bool) (v : Nat) (t t1 t2 : PageTable)
    (h1 : applyMark cached v t = some t1) (h2 : applyMark cached v t1 = some t2) :
    t1 = t := by
  obtain ⟨_, hunm1, htrue1, hfalse1⟩ := applyMark_char cached v t t1 h1
  obtain ⟨_, _, htrue2, hfalse2⟩ := applyMark_char cached v t1 t2 h2
  cases cached with
  | true =>
    rcases (htrue1 rfl).1 with ha | ha
    · exact hunm1 ha
    · obtain ⟨ha2, _⟩ := (htrue1 rfl).2 ha
      rcases (htrue2 rfl).1 with hb | hb <;> rw [ha2] at hb <;> exact absurd hb (by simp)
  | false =>
    rcases (hfalse1 rfl).1 with ha | ha
    · exact hunm1 ha
    · obtain ⟨ha2, _⟩ := (hfalse1 rfl).2 ha
      rcases (hfalse2 rfl).1 with hb | hb <;> rw [ha2] at hb <;> exact absurd hb (by simp)

theorem applyMark_inv (cached : Bool) (v : Nat) (t t2 : PageTable)
    (h : applyMark cached v t = some t2) (hinv : PageTableInvariant t) :
    PageTableInvariant t2 := by
  obtain ⟨hother, hunm, htrue, hfalse⟩ := applyMark_char cached v t t2 h
  intro j
  by_cases hj : j = v / PAGE_SIZE
  · subst hj
    cases cached with
    | true =>
      rcases (htrue rfl).1 with ha | ha
      · rw [hunm ha]
        exact hinv _
      · obtain ⟨ha2, hp2⟩ := (htrue rfl).2 ha
        rw [ha2, hp2]
        exact ⟨fun hx => absurd hx (by simp), fun _ => rfl, fun hx => absurd hx (by simp)⟩
    | false =>
      rcases (hfalse rfl).1 with ha | ha
      · rw [hunm ha]
        exact hinv _
      · obtain ⟨ha2, hp2⟩ := (hfalse rfl).2 ha
        rw [ha2, hp2]
        refine ⟨fun _ => ?_, fun hx => absurd hx (by simp), fun hx => absurd hx (by simp)⟩
        rcases hg : GetPointerForRasterizerCache (v - v % PAGE_SIZE) with _ | p
        · rw [applyMark_false_unfold] at h
          simp only [ha, hg] at h
          exact absurd h (by simp)
        · simp
  · obtain ⟨ha, hp⟩ := hother j hj
    rw [ha, hp]
    exact hinv j

theorem markTables_inv (ids : List Nat) :
    ∀ (tables tabs2 : Nat → PageTable) (v : Nat) (cached : Bool),
      markTables tables ids v cached = some tabs2 →
      (∀ id, PageTableInvariant (tables id)) →
      ∀ id, PageTableInvariant (tabs2 id) := by
  induction ids with
  | nil =>
    intro tables tabs2 v cached h hinv
    simp only [markTables, Option.some.injEq] at h
    rw [← h]
    exact hinv
  | cons id0 rest ih =>
    intro tables tabs2 v cached h hinv
    simp only [markTables] at h
    rcases hap : applyMark cached v (tables id0) with _ | t2 <;> rw [hap] at h
    · exact absurd h (by simp)
    · refine ih _ tabs2 v cached h ?_
      intro id
      by_cases hid : id = id0
      · subst hid
        simp only [if_pos rfl]
        exact applyMark_inv cached v (tables id) t2 hap (hinv id)
      · simp only [if_neg hid]
        exact hinv id

theorem markVaddr_inv (s s2 : MemorySystem) (v : Nat) (cached : Bool)
    (h : markVaddr s v cached = some s2) (hinv : AllTablesInvariant s) :
    AllTablesInvariant s2 := by
  unfold markVaddr at h
  rcases hmt : markTables s.tables s.page_table_list v cached with _ | tabs2 <;>
    simp only [hmt] at h
  · exact absurd h (by simp)
  · simp only [Option.some.injEq] at h
    rw [← h]
    exact markTables_inv s.page_table_list s.tables tabs2 v cached hmt hinv

theorem markAliases_inv (vs : List Nat) :
    ∀ (s s2 : MemorySystem) (cached : Bool),
      markAliases s vs cached = some s2 → AllTablesInvariant s → AllTablesInvariant s2 := by
  induction vs with
  | nil =>
    intro s s2 cached h hinv
    simp only [markAliases, Option.some.injEq] at h
    rw [← h]
    exact hinv
  | cons v rest ih =>
    intro s s2 cached h hinv
    simp only [markAliases] at h
    rcases hmv : markVaddr s v cached with _ | s3 <;> rw [hmv] at h
    · exact absurd h (by simp)
    · exact ih s3 s2 cached h (markVaddr_inv s s3 v cached hmv hinv)

theorem markPages_inv (n : Nat) :
    ∀ (s s2 : MemorySystem) (paddr : Nat) (cached : Bool),
      markPages s paddr cached n = some s2 → AllTablesInvariant s → AllTablesInvariant s2 := by
  induction n with
  | zero =>
    intro s s2 paddr cached h hinv
    simp only [markPages, Option.some.injEq] at h
    rw [← h]
    exact hinv
  | succ n ih =>
    intro s s2 paddr cached h hinv
    simp only [markPages] at h
    rcases hma : markAliases s (PhysicalToVirtualAddressForRasterizer paddr).1 cached with
      _ | s3 <;> rw [hma] at h
    · exact absurd h (by simp)
    · exact ih s3 s2 _ cached h
        (markAliases_inv (PhysicalToVirtualAddressForRasterizer paddr).1 s s3 cached hma hinv)

/-- C1 (amended): the page-table invariants P1, P2, P3 are preserved by
`MapMemoryRegion`, `UnmapRegion` and `RasterizerMarkRegionCached`,
**provided `MapMemoryRegion` is called with a non-null host pointer**.
The claim as stated is false because `MapMemoryRegion` with a null
`target` writes attribute `Memory` with a null pointer, violating P1 (see
the counterexample). -/
theorem pageTable_invariants_preserved :
    (∀ (s : MemorySystem) (tid base size : Nat) (p : HostPtr) (r : MemorySystem × List Event),
      AllTablesInvariant s → s.MapMemoryRegion tid base size (some p) = some r →
      AllTablesInvariant r.1) ∧
    (∀ (s : MemorySystem) (tid base size : Nat) (r : MemorySystem × List Event),
      AllTablesInvariant s → s.UnmapRegion tid base size = some r →
      AllTablesInvariant r.1) ∧
    (∀ (s : MemorySystem) (start size : Nat) (cached : Bool) (s2 : MemorySystem),
      AllTablesInvariant s → s.RasterizerMarkRegionCached start size cached = some s2 →
      AllTablesInvariant s2) := by
  refine ⟨?_, ?_, ?_⟩
  · intro s tid base size p r hinv h
    unfold MemorySystem.MapMemoryRegion at h
    by_cases halign : size % PAGE_SIZE = 0 ∧ base % PAGE_SIZE = 0
    · rw [if_pos halign] at h
      exact MapPages_inv s tid (base / PAGE_SIZE) (size / PAGE_SIZE) (some p)
        PageType.Memory r h hinv (Or.inl ⟨rfl, by simp⟩)
    · rw [if_neg halign] at h
      exact absurd h (by simp)
  · intro s tid base size r hinv h
    unfold MemorySystem.UnmapRegion at h
    by_cases halign : size % PAGE_SIZE = 0 ∧ base % PAGE_SIZE = 0
    · rw [if_pos halign] at h
      exact MapPages_inv s tid (base / PAGE_SIZE) (size / PAGE_SIZE) none
        PageType.Unmapped r h hinv (Or.inr ⟨rfl, rfl⟩)
    · rw [if_neg halign] at h
      exact absurd h (by simp)
  · intro s start size cached s2 hinv h
    unfold MemorySystem.RasterizerMarkRegionCached at h
    by_cases hstart : start = 0
    · rw [if_pos hstart] at h
      simp only [Option.some.injEq] at h
      rw [← h]
      exact hinv
    · rw [if_neg hstart] at h
      exact markPages_inv _ s s2 start cached h hinv

/-- Counterexample for C1 as stated: starting from an all-unmapped state
that satisfies the invariants, the public call
`MapMemoryRegion(table, 0, PAGE_SIZE, nullptr)` produces a page-table
entry with attribute `Memory` and a null pointer, violating P1. -/
theorem mapMemoryRegion_null_target_violates_P1 :
    AllTablesInvariant initState ∧
    (initState.MapMemoryRegion 0 0 PAGE_SIZE none).map
        (fun r => ((r.1.tables 0).attributes 0, (r.1.tables 0).pointers 0)) =
      some (PageType.Memory, none) := by
  constructor
  · intro id i
    exact ⟨fun hx => absurd hx (by simp [initState]), fun _ => rfl, fun _ => rfl⟩
  · rfl

/-- Witness for C1 (amended): the preservation statement applied to a
concrete mapping of one VRAM page with a non-null pointer. -/
theorem pageTable_invariants_preserved_witness :
    AllTablesInvariant initState ∧
    ∃ r, initState.MapMemoryRegion 0 VRAM_VADDR PAGE_SIZE (some ⟨Backing.vram, 0⟩) = some r ∧
      AllTablesInvariant r.1 := by
  have hinv : AllTablesInvariant initState := by
    intro id i
    exact ⟨fun hx => absurd hx (by simp [initState]), fun _ => rfl, fun _ => rfl⟩
  refine ⟨hinv, ?_⟩
  have hsome : (initState.MapMemoryRegion 0 VRAM_VADDR PAGE_SIZE
      (some ⟨Backing.vram, 0⟩)).isSome = true := rfl
  obtain ⟨r, hr⟩ := Option.isSome_iff_exists.mp hsome
  exact ⟨r, hr, pageTable_invariants_preserved.1 initState 0 VRAM_VADDR PAGE_SIZE
    ⟨Backing.vram, 0⟩ r hinv hr⟩

/-! ### C4: cached pages flush exactly once and use the backing pointer -/

/-- The rasterizer event a given `FlushMode` produces. -/
def flushEvent (mode : FlushMode) (paddr size : Nat) : Event :=
  match mode with
  | FlushMode.Flush => Event.flushRegion paddr size
  | FlushMode.Invalidate => Event.invalidateRegion paddr size
  | FlushMode.FlushAndInvalidate => Event.flushAndInvalidateRegion paddr size

/-- The physical address a rasterizer-cache backing pointer images: the
two backings `GetPointerForRasterizerCache` can produce sit at
`FCRAM_PADDR` and `VRAM_PADDR`. -/
def rasterizerPaddrOfPointer (p : HostPtr) : Nat :=
  (match p.backing with
   | Backing.fcram => FCRAM_PADDR
   | Backing.vram => VRAM_PADDR
   | _ => 0) + p.offset

theorem checkRegion_inside (start endv : Nat) (mode : FlushMode) (rs re ps : Nat)
    (h1 : rs ≤ start) (h2 : start < endv) (h3 : endv ≤ re) :
    checkRegion start endv mode rs re ps =
      [flushEvent mode (ps + (start - rs)) (endv - start)] := by
  unfold checkRegion flushEvent
  rw [if_neg (by omega)]
  have hmax : max start rs = start := by omega
  have hmin : min endv re = endv := by omega
  rw [hmax, hmin]
  cases mode <;> rfl

theorem checkRegion_disjoint (start endv : Nat) (mode : FlushMode) (rs re ps : Nat)
    (h : re ≤ start ∨ endv ≤ rs) :
    checkRegion start endv mode rs re ps = [] := by
  unfold checkRegion
  rw [if_pos h]

/-- A page-contained virtual range lying in one cacheable window makes
`RasterizerFlushVirtualRegion` dispatch exactly one rasterizer call, over
the physical image of the range. -/
theorem flushVirtual_singleton (vaddr w : Nat) (p : HostPtr) (mode : FlushMode) (hw : 0 < w)
    (hpage : vaddr % PAGE_SIZE + w ≤ PAGE_SIZE)
    (hwin : GetPointerForRasterizerCache vaddr = some p) :
    RasterizerFlushVirtualRegion vaddr w mode =
      [flushEvent mode (rasterizerPaddrOfPointer p) w] := by
  simp only [PAGE_SIZE] at hpage
  unfold GetPointerForRasterizerCache at hwin
  by_cases h1 : LINEAR_HEAP_VADDR ≤ vaddr ∧ vaddr < LINEAR_HEAP_VADDR_END
  · rw [if_pos h1] at hwin
    simp only [Option.some.injEq] at hwin
    subst hwin
    simp only [LINEAR_HEAP_VADDR, LINEAR_HEAP_VADDR_END, LINEAR_HEAP_SIZE] at h1
    have hend : (vaddr + w) % TWO32 = vaddr + w := by
      simp only [TWO32]
      omega
    simp only [RasterizerFlushVirtualRegion, hend]
    rw [checkRegion_inside vaddr (vaddr + w) mode _ _ _
        (by simp only [LINEAR_HEAP_VADDR]; omega) (by omega)
        (by simp only [LINEAR_HEAP_VADDR_END, LINEAR_HEAP_VADDR, LINEAR_HEAP_SIZE]; omega),
      checkRegion_disjoint _ _ _ _ _ _
        (Or.inr (by simp only [NEW_LINEAR_HEAP_VADDR]; omega)),
      checkRegion_disjoint _ _ _ _ _ _
        (Or.inr (by simp only [VRAM_VADDR]; omega))]
    simp only [List.append_nil, List.singleton_append, rasterizerPaddrOfPointer]
    congr 2
    omega
  · rw [if_neg h1] at hwin
    by_cases h2 : NEW_LINEAR_HEAP_VADDR ≤ vaddr ∧ vaddr < NEW_LINEAR_HEAP_VADDR_END
    · rw [if_pos h2] at hwin
      simp only [Option.some.injEq] at hwin
      subst hwin
      simp only [NEW_LINEAR_HEAP_VADDR, NEW_LINEAR_HEAP_VADDR_END, NEW_LINEAR_HEAP_SIZE] at h2
      simp only [LINEAR_HEAP_VADDR, LINEAR_HEAP_VADDR_END, LINEAR_HEAP_SIZE] at h1
      have hend : (vaddr + w) % TWO32 = vaddr + w := by
        simp only [TWO32]
        omega
      simp only [RasterizerFlushVirtualRegion, hend]
      rw [checkRegion_disjoint _ _ _ _ _ _
          (Or.inl (by simp only [LINEAR_HEAP_VADDR_END, LINEAR_HEAP_VADDR, LINEAR_HEAP_SIZE]; omega)),
        checkRegion_inside vaddr (vaddr + w) mode _ _ _
          (by simp only [NEW_LINEAR_HEAP_VADDR]; omega) (by omega)
          (by simp only [NEW_LINEAR_HEAP_VADDR_END, NEW_LINEAR_HEAP_VADDR,
            NEW_LINEAR_HEAP_SIZE]; omega),
        checkRegion_disjoint _ _ _ _ _ _
          (Or.inl (by simp only [VRAM_VADDR_END, VRAM_VADDR, VRAM_SIZE]; omega))]
      simp only [List.nil_append, List.append_nil, List.singleton_append,
        rasterizerPaddrOfPointer]
      congr 2
      omega
    · rw [if_neg h2] at hwin
      by_cases h3 : VRAM_VADDR ≤ vaddr ∧ vaddr < VRAM_VADDR_END
      · rw [if_pos h3] at hwin
        simp only [Option.some.injEq] at hwin
        subst hwin
        simp only [VRAM_VADDR, VRAM_VADDR_END, VRAM_SIZE] at h3
        simp only [NEW_LINEAR_HEAP_VADDR, NEW_LINEAR_HEAP_VADDR_END, NEW_LINEAR_HEAP_SIZE] at h2
        simp only [LINEAR_HEAP_VADDR, LINEAR_HEAP_VADDR_END, LINEAR_HEAP_SIZE] at h1
        have hend : (vaddr + w) % TWO32 = vaddr + w := by
          simp only [TWO32]
          omega
        simp only [RasterizerFlushVirtualRegion, hend]
        rw [checkRegion_disjoint _ _ _ _ _ _
            (Or.inl (by simp only [LINEAR_HEAP_VADDR_END, LINEAR_HEAP_VADDR, LINEAR_HEAP_SIZE]; omega)),
          checkRegion_disjoint _ _ _ _ _ _
            (Or.inr (by simp only [NEW_LINEAR_HEAP_VADDR]; omega)),
          checkRegion_inside vaddr (vaddr + w) mode _ _ _
            (by simp only [VRAM_VADDR]; omega) (by omega)
            (by simp only [VRAM_VADDR_END, VRAM_VADDR, VRAM_SIZE]; omega)]
        simp only [List.nil_append, rasterizerPaddrOfPointer]
        congr 2
        omega
      · rw [if_neg h3] at hwin
        exact absurd hwin (by simp)

/-- C4: on a page with attribute `RasterizerCachedMemory` (whose pointer
is null, invariant P2) inside a cacheable window, a page-contained
`Read<T>` dispatches exactly one rasterizer `FlushRegion` over the
physical image of `[vaddr, vaddr+sizeof(T))` and returns the bytes at
`GetPointerForRasterizerCache(vaddr)`, and `Write<T>` dispatches exactly
one `InvalidateRegion` over the same range and stores the value at that
pointer. -/
theorem cached_access_flush_once (s : MemorySystem) (w vaddr : Nat) (p : HostPtr)
    (hw : 0 < w) (hpage : vaddr % PAGE_SIZE + w ≤ PAGE_SIZE)
    (hptr : (s.tables s.currentTable).pointers (vaddr / PAGE_SIZE) = none)
    (hattr : (s.tables s.currentTable).attributes (vaddr / PAGE_SIZE) =
      PageType.RasterizerCachedMemory)
    (hwin : GetPointerForRasterizerCache vaddr = some p) :
    s.Read w vaddr =
      some (readBytesLE s.mem p w, [Event.flushRegion (rasterizerPaddrOfPointer p) w]) ∧
    ∀ data, s.Write w vaddr data =
      some ({ s with mem := writeBytesLE s.mem p data w },
        [Event.invalidateRegion (rasterizerPaddrOfPointer p) w]) := by
  constructor
  · simp only [MemorySystem.Read, hptr, hattr, hwin]
    rw [flushVirtual_singleton vaddr w p FlushMode.Flush hw hpage hwin]
    rfl
  · intro data
    simp only [MemorySystem.Write, hptr, hattr, hwin]
    rw [flushVirtual_singleton vaddr w p FlushMode.Invalidate hw hpage hwin]
    rfl

/-- A state whose current table holds VRAM page 0 as
`RasterizerCachedMemory` with a null pointer (the post-marking state of
spec scenario S3), for the C4 witness. -/
def c4State : MemorySystem :=
  { initState with
      tables := fun _ =>
        ⟨fun _ => none,
          fun i => if i = VRAM_VADDR / PAGE_SIZE then PageType.RasterizerCachedMemory
                   else PageType.Unmapped⟩ }

/-- Witness for C4: a 4-byte read at `VRAM_VADDR` on a rasterizer-cached
page flushes `[VRAM_PADDR, VRAM_PADDR+4)` exactly once. -/
theorem cached_access_flush_once_witness :
    (0 < 4 ∧ VRAM_VADDR % PAGE_SIZE + 4 ≤ PAGE_SIZE ∧
      (c4State.tables c4State.currentTable).pointers (VRAM_VADDR / PAGE_SIZE) = none ∧
      (c4State.tables c4State.currentTable).attributes (VRAM_VADDR / PAGE_SIZE) =
        PageType.RasterizerCachedMemory ∧
      GetPointerForRasterizerCache VRAM_VADDR = some ⟨Backing.vram, 0⟩) ∧
    c4State.Read 4 VRAM_VADDR =
      some (readBytesLE c4State.mem ⟨Backing.vram, 0⟩ 4,
        [Event.flushRegion (rasterizerPaddrOfPointer ⟨Backing.vram, 0⟩) 4]) :=
  ⟨⟨by decide, by decide, rfl, rfl, by decide⟩,
    (cached_access_flush_once c4State 4 VRAM_VADDR ⟨Backing.vram, 0⟩ (by decide) (by decide)
      rfl rfl (by decide)).1⟩

/-! ### C8: WriteBlock writes the source bytes contiguously -/

theorem offset_of (pI off : Nat) (h : off < PAGE_SIZE) :
    (pI * PAGE_SIZE + off) % PAGE_SIZE = off := by
  simp only [PAGE_SIZE] at *
  omega

/-- Specification-side model for C8, following the spec's words: the
source bytes land one at a time at consecutive guest addresses
`v, v+1, ...`, each through its own page's pointer; `none` when a touched
page has a null pointer. -/
def specContiguousWrite (t : PageTable) : Mem → Nat → List Nat → Option Mem
  | mem, _, [] => some mem
  | mem, vaddr, b :: rest =>
    match t.pointers (vaddr / PAGE_SIZE) with
    | some p =>
      specContiguousWrite t (mem.write (p.add (vaddr % PAGE_SIZE)) b) (vaddr + 1) rest
    | none => none

theorem specContiguousWrite_chunk (t : PageTable) (pI : Nat) (p : HostPtr)
    (hp : t.pointers pI = some p) (k : Nat) :
    ∀ (pO : Nat) (buf : List Nat) (mem : Mem),
      pO + k ≤ PAGE_SIZE → k ≤ buf.length →
      specContiguousWrite t mem (pI * PAGE_SIZE + pO) buf =
        specContiguousWrite t (writeBytes mem (p.add pO) (buf.take k))
          (pI * PAGE_SIZE + pO + k) (buf.drop k) := by
  induction k with
  | zero =>
    intro pO buf mem h1 h2
    simp [writeBytes]
  | succ k ih =>
    intro pO buf mem h1 h2
    rcases buf with _ | ⟨b, rest⟩
    · simp at h2
    · have hpo : pO < PAGE_SIZE := by
        have : 0 < PAGE_SIZE := by simp [PAGE_SIZE]
        omega
      have hpage : (pI * PAGE_SIZE + pO) / PAGE_SIZE = pI := page_of_offset pI pO hpo
      have hoff : (pI * PAGE_SIZE + pO) % PAGE_SIZE = pO := offset_of pI pO hpo
      have hstep : specContiguousWrite t mem (pI * PAGE_SIZE + pO) (b :: rest) =
          specContiguousWrite t (mem.write (p.add pO) b) (pI * PAGE_SIZE + pO + 1) rest := by
        simp only [specContiguousWrite, hpage, hp, hoff]
      have he : pI * PAGE_SIZE + pO + 1 = pI * PAGE_SIZE + (pO + 1) := by omega
      rw [hstep, he, ih (pO + 1) rest (mem.write (p.add pO) b) (by omega) (by simpa using h2)]
      have htake : (b :: rest).take (k + 1) = b :: rest.take k := rfl
      have hdrop : (b :: rest).drop (k + 1) = rest.drop k := rfl
      rw [htake, hdrop]
      have hwb : writeBytes mem (p.add pO) (b :: rest.take k) =
          writeBytes (mem.write (p.add pO) b) (p.add (pO + 1)) (rest.take k) := by
        simp only [writeBytes, HostPtr.add_add]
      have haddr : pI * PAGE_SIZE + (pO + 1) + k = pI * PAGE_SIZE + pO + (k + 1) := by omega
      rw [hwb, haddr]

theorem WriteBlockLoop_zero_rem (t : PageTable) (fuel : Nat) (mem : Mem) (pI pO : Nat)
    (buf : List Nat) : WriteBlockLoop t fuel mem pI pO buf 0 = some (mem, []) := by
  cases fuel <;> rfl

theorem WriteBlockLoop_spec (fuel : Nat) :
    ∀ (pI pO rem : Nat) (buf : List Nat) (mem : Mem) (t : PageTable),
      pO < PAGE_SIZE → buf.length = rem → rem ≤ fuel →
      (∀ i, i < rem →
        t.attributes ((pI * PAGE_SIZE + pO + i) / PAGE_SIZE) = PageType.Memory) →
      WriteBlockLoop t fuel mem pI pO buf rem =
        (specContiguousWrite t mem (pI * PAGE_SIZE + pO) buf).map (fun m => (m, [])) := by
  induction fuel with
  | zero =>
    intro pI pO rem buf mem t hpo hlen hle _
    have hrem : rem = 0 := by omega
    subst hrem
    rw [WriteBlockLoop_zero_rem]
    rcases buf with _ | ⟨b, rest⟩
    · rfl
    · simp at hlen
  | succ fuel ih =>
    intro pI pO rem buf mem t hpo hlen hle hattr
    rcases Nat.eq_zero_or_pos rem with hrem | hrem
    · subst hrem
      rw [WriteBlockLoop_zero_rem]
      rcases buf with _ | ⟨b, rest⟩
      · rfl
      · simp at hlen
    · have hattr0 : t.attributes pI = PageType.Memory := by
        have := hattr 0 (by omega)
        rwa [Nat.add_zero, page_of_offset pI pO hpo] at this
      simp only [WriteBlockLoop]
      rw [if_neg (by omega)]
      rcases hptr : t.pointers pI with _ | p
      · have hstep : WriteBlockStep t mem pI pO buf (min (PAGE_SIZE - pO) rem) = none := by
          unfold WriteBlockStep
          rw [hattr0, hptr]
        simp only [hstep]
        rcases buf with _ | ⟨b, rest⟩
        · simp only [List.length_nil] at hlen
          omega
        · have hnone : specContiguousWrite t mem (pI * PAGE_SIZE + pO) (b :: rest) = none := by
            simp only [specContiguousWrite, page_of_offset pI pO hpo, hptr]
          rw [hnone]
          rfl
      · have hstep : WriteBlockStep t mem pI pO buf (min (PAGE_SIZE - pO) rem) =
            some (writeBytes mem (p.add pO) (buf.take (min (PAGE_SIZE - pO) rem)), []) := by
          unfold WriteBlockStep
          rw [hattr0, hptr]
        simp only [hstep]
        have hchunk := specContiguousWrite_chunk t pI p hptr (min (PAGE_SIZE - pO) rem) pO buf
          mem (by omega) (by omega)
        rw [hchunk]
        rcases Nat.lt_or_ge (rem : Nat) (PAGE_SIZE - pO) with hc | hc
        · have hmin : min (PAGE_SIZE - pO) rem = rem := by omega
          rw [hmin]
          have hdrop : buf.drop rem = ([] : List Nat) := by
            apply List.drop_eq_nil_of_le
            omega
          rw [hdrop, Nat.sub_self, WriteBlockLoop_zero_rem]
          rfl
        · have hmin : min (PAGE_SIZE - pO) rem = PAGE_SIZE - pO := by omega
          rw [hmin]
          have hrec := ih (pI + 1) 0 (rem - (PAGE_SIZE - pO)) (buf.drop (PAGE_SIZE - pO))
            (writeBytes mem (p.add pO) (buf.take (PAGE_SIZE - pO))) t
            (by simp [PAGE_SIZE]) (by rw [List.length_drop, hlen]) (by omega) ?hshift
          case hshift =>
            intro i hi
            have hpos : (pI + 1) * PAGE_SIZE + 0 + i =
                pI * PAGE_SIZE + pO + (PAGE_SIZE - pO + i) := by
              simp only [PAGE_SIZE] at *
              omega
            rw [hpos]
            exact hattr (PAGE_SIZE - pO + i) (by omega)
          rw [hrec]
          have haddr : pI * PAGE_SIZE + pO + (PAGE_SIZE - pO) = (pI + 1) * PAGE_SIZE + 0 := by
            simp only [PAGE_SIZE] at *
            omega
          rw [haddr]
          cases hspec : specContiguousWrite t
              (writeBytes mem (p.add pO) (buf.take (PAGE_SIZE - pO)))
              ((pI + 1) * PAGE_SIZE + 0) (buf.drop (PAGE_SIZE - pO)) <;> rfl

/-- C8: a `WriteBlock` whose range straddles a page boundary walks one
page at a time and, when every touched page has attribute `Memory`,
equals the specification-side byte-by-byte write: the `N` source bytes
land contiguously at guest addresses `v .. v+N-1` across the page
boundary (and no rasterizer events are emitted). -/
theorem writeBlock_contiguous (mem : Mem) (t : PageTable) (dest : Nat) (buf : List Nat)
    (N : Nat) (hlen : buf.length = N)
    (hstraddle : dest % PAGE_SIZE + N > PAGE_SIZE)
    (hattrs : ∀ i, i < N → t.attributes ((dest + i) / PAGE_SIZE) = PageType.Memory) :
    WriteBlock mem t dest buf N =
      (specContiguousWrite t mem dest buf).map (fun m => (m, [])) := by
  unfold WriteBlock
  have hpos : ∀ i : Nat, dest / PAGE_SIZE * PAGE_SIZE + dest % PAGE_SIZE + i = dest + i := by
    intro i
    simp only [PAGE_SIZE]
    omega
  have h := WriteBlockLoop_spec N (dest / PAGE_SIZE) (dest % PAGE_SIZE) N buf mem t
    (Nat.mod_lt _ (by simp [PAGE_SIZE])) hlen (Nat.le_refl N)
    (fun i hi => by rw [hpos i]; exact hattrs i hi)
  rw [h]
  have hdest : dest / PAGE_SIZE * PAGE_SIZE + dest % PAGE_SIZE = dest := by
    simp only [PAGE_SIZE]
    omega
  rw [hdest]

/-- A page table backing guest pages 1 and 2 with two disjoint external
buffers, for the C8 witness. -/
def c8Table : PageTable :=
  { pointers := fun i =>
      if i = 1 then some ⟨Backing.ext 0, 0⟩
      else if i = 2 then some ⟨Backing.ext 1, 0⟩ else none
    attributes := fun i => if i = 1 ∨ i = 2 then PageType.Memory else PageType.Unmapped }

/-- Witness for C8: an 8-byte write at `0x1FFC` straddles pages 1 and 2
and equals the byte-by-byte specification write. -/
theorem writeBlock_contiguous_witness :
    (([1, 2, 3, 4, 5, 6, 7, 8] : List Nat).length = 8 ∧
      0x1FFC % PAGE_SIZE + 8 > PAGE_SIZE ∧
      (∀ i, i < 8 → c8Table.attributes ((0x1FFC + i) / PAGE_SIZE) = PageType.Memory)) ∧
    WriteBlock (fun _ _ => 0) c8Table 0x1FFC [1, 2, 3, 4, 5, 6, 7, 8] 8 =
      (specContiguousWrite c8Table (fun _ _ => 0) 0x1FFC [1, 2, 3, 4, 5, 6, 7, 8]).map
        (fun m => (m, [])) :=
  ⟨⟨by decide, by decide, by decide⟩,
    writeBlock_contiguous (fun _ _ => 0) c8Table 0x1FFC [1, 2, 3, 4, 5, 6, 7, 8] 8
      (by decide) (by decide) (by decide)⟩

/-! ### Shared machinery for C3 and C6: what RasterizerMarkRegionCached
does to the marker and to every registered table -/

/-- The attribute transition table of `RasterizerMarkRegionCached` at one
virtual page, relating a table before (`t`) and after (`t2`) a mark at
`v`: `Unmapped` stays `Unmapped`; with `cached = true`, `Memory` becomes
`RasterizerCachedMemory` with the pointer cleared; with `cached = false`,
`RasterizerCachedMemory` becomes `Memory` with the pointer set from
`GetPointerForRasterizerCache` at the page start. -/
def transitionAt (t t2 : PageTable) (v : Nat) (cached : Bool) : Prop :=
  (t.attributes (v / PAGE_SIZE) = PageType.Unmapped →
    t2.attributes (v / PAGE_SIZE) = PageType.Unmapped ∧
    t2.pointers (v / PAGE_SIZE) = t.pointers (v / PAGE_SIZE)) ∧
  (cached = true → t.attributes (v / PAGE_SIZE) = PageType.Memory →
    t2.attributes (v / PAGE_SIZE) = PageType.RasterizerCachedMemory ∧
    t2.pointers (v / PAGE_SIZE) = none) ∧
  (cached = false → t.attributes (v / PAGE_SIZE) = PageType.RasterizerCachedMemory →
    t2.attributes (v / PAGE_SIZE) = PageType.Memory ∧
    t2.pointers (v / PAGE_SIZE) = GetPointerForRasterizerCache (v - v % PAGE_SIZE))

theorem transitionAt_of_applyMark (t t2 : PageTable) (v : Nat) (c : Bool)
    (h : applyMark c v t = some t2) : transitionAt t t2 v c := by
  obtain ⟨hother, hunm, htrue, hfalse⟩ := applyMark_char c v t t2 h
  refine ⟨fun hu => ?_, fun hc hm => ?_, fun hc hr => ?_⟩
  · rw [hunm hu]
    exact ⟨hu, rfl⟩
  · subst hc
    exact (htrue rfl).2 hm
  · subst hc
    exact (hfalse rfl).2 hr

theorem transitionAt_of_frame (t t1 t2 : PageTable) (v : Nat) (c : Bool)
    (h : transitionAt t t1 v c)
    (ha : t2.attributes (v / PAGE_SIZE) = t1.attributes (v / PAGE_SIZE))
    (hp : t2.pointers (v / PAGE_SIZE) = t1.pointers (v / PAGE_SIZE)) :
    transitionAt t t2 v c := by
  obtain ⟨h1, h2, h3⟩ := h
  refine ⟨fun hu => ?_, fun hc hm => ?_, fun hc hr => ?_⟩
  · obtain ⟨x, y⟩ := h1 hu
    exact ⟨ha.trans x, hp.trans y⟩
  · obtain ⟨x, y⟩ := h2 hc hm
    exact ⟨ha.trans x, hp.trans y⟩
  · obtain ⟨x, y⟩ := h3 hc hr
    exact ⟨ha.trans x, hp.trans y⟩

theorem transitionAt_of_preframe (t t1 t2 : PageTable) (v : Nat) (c : Bool)
    (h : transitionAt t1 t2 v c)
    (ha : t1.attributes (v / PAGE_SIZE) = t.attributes (v / PAGE_SIZE))
    (hp : t1.pointers (v / PAGE_SIZE) = t.pointers (v / PAGE_SIZE)) :
    transitionAt t t2 v c := by
  obtain ⟨h1, h2, h3⟩ := h
  refine ⟨fun hu => ?_, fun hc hm => ?_, fun hc hr => ?_⟩
  · obtain ⟨x, y⟩ := h1 (ha.trans hu)
    exact ⟨x, y.trans hp⟩
  · exact h2 hc (ha.trans hm)
  · exact h3 hc (ha.trans hr)

/-- Membership in one of the three cacheable virtual windows (the ranges
covered by both the cache marker and `GetPointerForRasterizerCache`). -/
def InWindow (v : Nat) : Prop :=
  (VRAM_VADDR ≤ v ∧ v < VRAM_VADDR_END) ∨
  (LINEAR_HEAP_VADDR ≤ v ∧ v < LINEAR_HEAP_VADDR_END) ∨
  (NEW_LINEAR_HEAP_VADDR ≤ v ∧ v < NEW_LINEAR_HEAP_VADDR_END)

theorem Mark_IsCached_self (m : RasterizerCacheMarker) (v : Nat) (c : Bool)
    (h : InWindow v) : (m.Mark v c).IsCached v = c := by
  unfold RasterizerCacheMarker.Mark RasterizerCacheMarker.IsCached
  rcases h with h | h | h
  · rw [if_pos h, if_pos h]
    simp
  · have hnv : ¬(VRAM_VADDR ≤ v ∧ v < VRAM_VADDR_END) := by
      simp only [VRAM_VADDR, VRAM_VADDR_END, VRAM_SIZE, LINEAR_HEAP_VADDR,
        LINEAR_HEAP_VADDR_END, LINEAR_HEAP_SIZE] at h ⊢
      omega
    rw [if_neg hnv, if_pos h, if_neg hnv, if_pos h]
    simp
  · have hnv : ¬(VRAM_VADDR ≤ v ∧ v < VRAM_VADDR_END) := by
      simp only [VRAM_VADDR, VRAM_VADDR_END, VRAM_SIZE, NEW_LINEAR_HEAP_VADDR,
        NEW_LINEAR_HEAP_VADDR_END, NEW_LINEAR_HEAP_SIZE] at h ⊢
      omega
    have hnl : ¬(LINEAR_HEAP_VADDR ≤ v ∧ v < LINEAR_HEAP_VADDR_END) := by
      simp only [LINEAR_HEAP_VADDR, LINEAR_HEAP_VADDR_END, LINEAR_HEAP_SIZE,
        NEW_LINEAR_HEAP_VADDR, NEW_LINEAR_HEAP_VADDR_END, NEW_LINEAR_HEAP_SIZE] at h ⊢
      omega
    rw [if_neg hnv, if_neg hnl, if_pos h, if_neg hnv, if_neg hnl, if_pos h]
    simp

theorem Mark_IsCached_ne (m : RasterizerCacheMarker) (v w : Nat) (c : Bool)
    (h : v / PAGE_SIZE ≠ w / PAGE_SIZE) : (m.Mark v c).IsCached w = m.IsCached w := by
  unfold RasterizerCacheMarker.Mark RasterizerCacheMarker.IsCached
  by_cases hv1 : VRAM_VADDR ≤ v ∧ v < VRAM_VADDR_END
  · rw [if_pos hv1]
    by_cases hw1 : VRAM_VADDR ≤ w ∧ w < VRAM_VADDR_END
    · rw [if_pos hw1, if_pos hw1]
      have : (w - VRAM_VADDR) / PAGE_SIZE ≠ (v - VRAM_VADDR) / PAGE_SIZE := by
        simp only [VRAM_VADDR, VRAM_VADDR_END, VRAM_SIZE, PAGE_SIZE] at *
        omega
      simp [this]
    · rw [if_neg hw1, if_neg hw1]
  · rw [if_neg hv1]
    by_cases hv2 : LINEAR_HEAP_VADDR ≤ v ∧ v < LINEAR_HEAP_VADDR_END
    · rw [if_pos hv2]
      by_cases hw1 : VRAM_VADDR ≤ w ∧ w < VRAM_VADDR_END
      · rw [if_pos hw1, if_pos hw1]
      · rw [if_neg hw1, if_neg hw1]
        by_cases hw2 : LINEAR_HEAP_VADDR ≤ w ∧ w < LINEAR_HEAP_VADDR_END
        · rw [if_pos hw2, if_pos hw2]
          have : (w - LINEAR_HEAP_VADDR) / PAGE_SIZE ≠ (v - LINEAR_HEAP_VADDR) / PAGE_SIZE := by
            simp only [LINEAR_HEAP_VADDR, LINEAR_HEAP_VADDR_END, LINEAR_HEAP_SIZE,
              PAGE_SIZE] at *
            omega
          simp [this]
        · rw [if_neg hw2, if_neg hw2]
    · rw [if_neg hv2]
      by_cases hv3 : NEW_LINEAR_HEAP_VADDR ≤ v ∧ v < NEW_LINEAR_HEAP_VADDR_END
      · rw [if_pos hv3]
        by_cases hw1 : VRAM_VADDR ≤ w ∧ w < VRAM_VADDR_END
        · rw [if_pos hw1, if_pos hw1]
        · rw [if_neg hw1, if_neg hw1]
          by_cases hw2 : LINEAR_HEAP_VADDR ≤ w ∧ w < LINEAR_HEAP_VADDR_END
          · rw [if_pos hw2, if_pos hw2]
          · rw [if_neg hw2, if_neg hw2]
            by_cases hw3 : NEW_LINEAR_HEAP_VADDR ≤ w ∧ w < NEW_LINEAR_HEAP_VADDR_END
            · rw [if_pos hw3, if_pos hw3]
              have : (w - NEW_LINEAR_HEAP_VADDR) / PAGE_SIZE ≠
                  (v - NEW_LINEAR_HEAP_VADDR) / PAGE_SIZE := by
                simp only [NEW_LINEAR_HEAP_VADDR, NEW_LINEAR_HEAP_VADDR_END,
                  NEW_LINEAR_HEAP_SIZE, PAGE_SIZE] at *
                omega
              simp [this]
            · rw [if_neg hw3, if_neg hw3]
      · rw [if_neg hv3]

/-- Elimination for membership in the alias list of a physical address. -/
theorem mem_physicalToVirtual (p v : Nat)
    (h : v ∈ (PhysicalToVirtualAddressForRasterizer p).1) :
    (VRAM_PADDR ≤ p ∧ p < VRAM_PADDR_END ∧ v = p - VRAM_PADDR + VRAM_VADDR) ∨
    (FCRAM_PADDR ≤ p ∧ p < FCRAM_PADDR_END ∧
      (v = p - FCRAM_PADDR + LINEAR_HEAP_VADDR ∨
        v = p - FCRAM_PADDR + NEW_LINEAR_HEAP_VADDR)) ∨
    (FCRAM_PADDR_END ≤ p ∧ p < FCRAM_N3DS_PADDR_END ∧
      v = p - FCRAM_PADDR + NEW_LINEAR_HEAP_VADDR) := by
  unfold PhysicalToVirtualAddressForRasterizer at h
  by_cases h1 : VRAM_PADDR ≤ p ∧ p < VRAM_PADDR_END
  · rw [if_pos h1] at h
    simp only [List.mem_singleton] at h
    exact Or.inl ⟨h1.1, h1.2, h⟩
  · rw [if_neg h1] at h
    by_cases h2 : FCRAM_PADDR ≤ p ∧ p < FCRAM_PADDR_END
    · rw [if_pos h2] at h
      simp only [List.mem_cons, List.mem_singleton, List.not_mem_nil, or_false] at h
      exact Or.inr (Or.inl ⟨h2.1, h2.2, h⟩)
    · rw [if_neg h2] at h
      by_cases h3 : FCRAM_PADDR_END ≤ p ∧ p < FCRAM_N3DS_PADDR_END
      · rw [if_pos h3] at h
        simp only [List.mem_singleton] at h
        exact Or.inr (Or.inr ⟨h3.1, h3.2, h⟩)
      · rw [if_neg h3] at h
        exact absurd h (by simp)

/-- Every alias lies in a cacheable window. -/
theorem aliases_inWindow (p v : Nat) (h : v ∈ (PhysicalToVirtualAddressForRasterizer p).1) :
    InWindow v := by
  rcases mem_physicalToVirtual p v h with ⟨h1, h2, h3⟩ | ⟨h1, h2, h3 | h3⟩ | ⟨h1, h2, h3⟩ <;>
    subst h3 <;>
    unfold InWindow <;>
    simp only [VRAM_PADDR, VRAM_PADDR_END, VRAM_SIZE, VRAM_VADDR, VRAM_VADDR_END,
      FCRAM_PADDR, FCRAM_PADDR_END, FCRAM_SIZE, FCRAM_N3DS_PADDR_END, FCRAM_N3DS_SIZE,
      LINEAR_HEAP_VADDR, LINEAR_HEAP_VADDR_END, LINEAR_HEAP_SIZE, NEW_LINEAR_HEAP_VADDR,
      NEW_LINEAR_HEAP_VADDR_END, NEW_LINEAR_HEAP_SIZE] at * <;>
    omega

/-- Aliases of physical addresses on distinct physical pages lie on
distinct virtual pages. -/
theorem aliases_pages_ne (p q v u : Nat)
    (hv : v ∈ (PhysicalToVirtualAddressForRasterizer p).1)
    (hu : u ∈ (PhysicalToVirtualAddressForRasterizer q).1)
    (hpq : p / PAGE_SIZE ≠ q / PAGE_SIZE) : v / PAGE_SIZE ≠ u / PAGE_SIZE := by
  rcases mem_physicalToVirtual p v hv with ⟨h1, h2, h3⟩ | ⟨h1, h2, h3 | h3⟩ | ⟨h1, h2, h3⟩ <;>
    rcases mem_physicalToVirtual q u hu with
      ⟨g1, g2, g3⟩ | ⟨g1, g2, g3 | g3⟩ | ⟨g1, g2, g3⟩ <;>
    subst h3 <;> subst g3 <;>
    simp only [VRAM_PADDR, VRAM_PADDR_END, VRAM_SIZE, VRAM_VADDR, VRAM_VADDR_END,
      FCRAM_PADDR, FCRAM_PADDR_END, FCRAM_SIZE, FCRAM_N3DS_PADDR_END, FCRAM_N3DS_SIZE,
      LINEAR_HEAP_VADDR, LINEAR_HEAP_VADDR_END, LINEAR_HEAP_SIZE, NEW_LINEAR_HEAP_VADDR,
      NEW_LINEAR_HEAP_VADDR_END, NEW_LINEAR_HEAP_SIZE, PAGE_SIZE] at * <;>
    omega

/-- The two aliases of one physical address lie on distinct virtual
pages. -/
theorem aliases_pairwise (p : Nat) :
    (PhysicalToVirtualAddressForRasterizer p).1.Pairwise
      (fun a b => a / PAGE_SIZE ≠ b / PAGE_SIZE) := by
  unfold PhysicalToVirtualAddressForRasterizer
  by_cases h1 : VRAM_PADDR ≤ p ∧ p < VRAM_PADDR_END
  · rw [if_pos h1]
    simp
  · rw [if_neg h1]
    by_cases h2 : FCRAM_PADDR ≤ p ∧ p < FCRAM_PADDR_END
    · rw [if_pos h2]
      simp only [List.pairwise_cons, List.mem_singleton, List.pairwise_singleton, and_true,
        forall_eq]
      clear h1
      simp only [FCRAM_PADDR, FCRAM_PADDR_END, FCRAM_SIZE, LINEAR_HEAP_VADDR,
        NEW_LINEAR_HEAP_VADDR, PAGE_SIZE] at *
      refine ⟨by omega, fun a ha => absurd ha (List.not_mem_nil a), List.Pairwise.nil⟩
    · rw [if_neg h2]
      by_cases h3 : FCRAM_PADDR_END ≤ p ∧ p < FCRAM_N3DS_PADDR_END
      · rw [if_pos h3]
        simp
      · rw [if_neg h3]
        simp

theorem markTables_not_mem (ids : List Nat) :
    ∀ (tables tabs2 : Nat → PageTable) (v : Nat) (c : Bool),
      markTables tables ids v c = some tabs2 →
      ∀ id, id ∉ ids → tabs2 id = tables id := by
  induction ids with
  | nil =>
    intro tables tabs2 v c h id _
    simp only [markTables, Option.some.injEq] at h
    rw [← h]
  | cons id0 rest ih =>
    intro tables tabs2 v c h id hid
    simp only [markTables] at h
    rcases hap : applyMark c v (tables id0) with _ | t2 <;> rw [hap] at h
    · exact absurd h (by simp)
    · have hne : id ≠ id0 := fun hc => hid (hc ▸ List.mem_cons_self id0 rest)
      have hrest : id ∉ rest := fun hc => hid (List.mem_cons_of_mem id0 hc)
      rw [ih _ tabs2 v c h id hrest]
      simp [hne]

theorem markTables_mem (ids : List Nat) :
    ∀ (tables tabs2 : Nat → PageTable) (v : Nat) (c : Bool),
      markTables tables ids v c = some tabs2 →
      ∀ id, id ∈ ids → applyMark c v (tables id) = some (tabs2 id) := by
  induction ids with
  | nil =>
    intro tables tabs2 v c _ id hid
    exact absurd hid (by simp)
  | cons id0 rest ih =>
    intro tables tabs2 v c h id hid
    simp only [markTables] at h
    rcases hap : applyMark c v (tables id0) with _ | t2 <;> rw [hap] at h
    · exact absurd h (by simp)
    · by_cases hmem : id ∈ rest
      · have hrec := ih _ tabs2 v c h id hmem
        by_cases hne : id = id0
        · subst hne
          simp only [if_pos rfl] at hrec
          have htw := applyMark_twice c v (tables id) t2 (tabs2 id) hap hrec
          rw [← htw]
          exact hrec
        · simpa only [if_neg hne] using hrec
      · have hne : id = id0 := by
          rcases List.mem_cons.mp hid with h' | h'
          · exact h'
          · exact absurd h' hmem
        subst hne
        have := markTables_not_mem rest _ tabs2 v c h id hmem
        rw [this, if_pos rfl]
        exact hap

theorem markTables_entry_frame (ids : List Nat) :
    ∀ (tables tabs2 : Nat → PageTable) (v : Nat) (c : Bool),
      markTables tables ids v c = some tabs2 →
      ∀ id j, j ≠ v / PAGE_SIZE →
        (tabs2 id).attributes j = (tables id).attributes j ∧
        (tabs2 id).pointers j = (tables id).pointers j := by
  induction ids with
  | nil =>
    intro tables tabs2 v c h id j _
    simp only [markTables, Option.some.injEq] at h
    rw [← h]
    exact ⟨rfl, rfl⟩
  | cons id0 rest ih =>
    intro tables tabs2 v c h id j hj
    simp only [markTables] at h
    rcases hap : applyMark c v (tables id0) with _ | t2 <;> rw [hap] at h
    · exact absurd h (by simp)
    · have hrec := ih _ tabs2 v c h id j hj
      by_cases hne : id = id0
      · subst hne
        simp only [if_pos rfl] at hrec
        obtain ⟨hother, _, _, _⟩ := applyMark_char c v (tables id) t2 hap
        obtain ⟨x, y⟩ := hother j hj
        exact ⟨hrec.1.trans x, hrec.2.trans y⟩
      · simpa only [if_neg hne] using hrec

theorem markVaddr_state (s s2 : MemorySystem) (v : Nat) (c : Bool)
    (h : markVaddr s v c = some s2) :
    s2.page_table_list = s.page_table_list ∧ s2.currentTable = s.currentTable ∧
    s2.mem = s.mem ∧ s2.dspSet = s.dspSet ∧
    s2.cache_marker = s.cache_marker.Mark v c := by
  unfold markVaddr at h
  rcases hmt : markTables s.tables s.page_table_list v c with _ | tabs2 <;>
    simp only [hmt] at h
  · exact absurd h (by simp)
  · simp only [Option.some.injEq] at h
    rw [← h]
    exact ⟨rfl, rfl, rfl, rfl, rfl⟩

theorem markVaddr_tables_mem (s s2 : MemorySystem) (v : Nat) (c : Bool)
    (h : markVaddr s v c = some s2) (id : Nat) (hid : id ∈ s.page_table_list) :
    applyMark c v (s.tables id) = some (s2.tables id) := by
  unfold markVaddr at h
  rcases hmt : markTables s.tables s.page_table_list v c with _ | tabs2 <;>
    simp only [hmt] at h
  · exact absurd h (by simp)
  · simp only [Option.some.injEq] at h
    rw [← h]
    exact markTables_mem s.page_table_list s.tables tabs2 v c hmt id hid

theorem markVaddr_entry_frame (s s2 : MemorySystem) (v : Nat) (c : Bool)
    (h : markVaddr s v c = some s2) (id j : Nat) (hj : j ≠ v / PAGE_SIZE) :
    (s2.tables id).attributes j = (s.tables id).attributes j ∧
    (s2.tables id).pointers j = (s.tables id).pointers j := by
  unfold markVaddr at h
  rcases hmt : markTables s.tables s.page_table_list v c with _ | tabs2 <;>
    simp only [hmt] at h
  · exact absurd h (by simp)
  · simp only [Option.some.injEq] at h
    rw [← h]
    exact markTables_entry_frame s.page_table_list s.tables tabs2 v c hmt id j hj

/-- What one pass of the alias loop of `RasterizerMarkRegionCached` does:
for every alias in the list, the marker records the new bit and every
registered table's entry makes the attribute transition; everything else
is untouched. -/
theorem markAliases_char (vs : List Nat) :
    ∀ (s s2 : MemorySystem) (c : Bool),
      markAliases s vs c = some s2 →
      vs.Pairwise (fun a b => a / PAGE_SIZE ≠ b / PAGE_SIZE) →
      (∀ v ∈ vs, InWindow v) →
      (s2.page_table_list = s.page_table_list ∧ s2.currentTable = s.currentTable ∧
        s2.mem = s.mem ∧ s2.dspSet = s.dspSet) ∧
      (∀ v ∈ vs,
        s2.cache_marker.IsCached v = c ∧
        ∀ id ∈ s.page_table_list, transitionAt (s.tables id) (s2.tables id) v c) ∧
      (∀ j, (∀ v ∈ vs, v / PAGE_SIZE ≠ j) →
        ∀ id, (s2.tables id).attributes j = (s.tables id).attributes j ∧
          (s2.tables id).pointers j = (s.tables id).pointers j) ∧
      (∀ w, (∀ v ∈ vs, v / PAGE_SIZE ≠ w / PAGE_SIZE) →
        s2.cache_marker.IsCached w = s.cache_marker.IsCached w) := by
  induction vs with
  | nil =>
    intro s s2 c h _ _
    simp only [markAliases, Option.some.injEq] at h
    subst h
    exact ⟨⟨rfl, rfl, rfl, rfl⟩, fun v hv => absurd hv (by simp),
      fun j _ id => ⟨rfl, rfl⟩, fun w _ => rfl⟩
  | cons v rest ih =>
    intro s s2 c h hpw hwin
    simp only [markAliases] at h
    rcases hmv : markVaddr s v c with _ | s1 <;> rw [hmv] at h
    · exact absurd h (by simp)
    · obtain ⟨hlist1, hcur1, hmem1, hdsp1, hmark1⟩ := markVaddr_state s s1 v c hmv
      rw [List.pairwise_cons] at hpw
      obtain ⟨hstate, htrans, hframe, hmframe⟩ := ih s1 s2 c h hpw.2
        (fun u hu => hwin u (List.mem_cons_of_mem v hu))
      obtain ⟨hlist2, hcur2, hmem2, hdsp2⟩ := hstate
      refine ⟨⟨hlist2.trans hlist1, hcur2.trans hcur1, hmem2.trans hmem1,
        hdsp2.trans hdsp1⟩, ?_, ?_, ?_⟩
      · intro u hu
        rcases List.mem_cons.mp hu with hu | hu
        · subst hu
          constructor
          · have hstep := hmframe u (fun x hx => Ne.symm (hpw.1 x hx))
            rw [hstep, hmark1, Mark_IsCached_self s.cache_marker u c
              (hwin u (List.mem_cons_self u rest))]
          · intro id hid
            have h1 := transitionAt_of_applyMark (s.tables id) (s1.tables id) u c
              (markVaddr_tables_mem s s1 u c hmv id hid)
            have h2 := hframe (u / PAGE_SIZE) (fun x hx => Ne.symm (hpw.1 x hx)) id
            exact transitionAt_of_frame (s.tables id) (s1.tables id) (s2.tables id) u c h1
              h2.1 h2.2
        · constructor
          · exact (htrans u hu).1
          · intro id hid
            have h1 := (htrans u hu).2 id (by rw [hlist1]; exact hid)
            have h2 := markVaddr_entry_frame s s1 v c hmv id (u / PAGE_SIZE)
              (Ne.symm (hpw.1 u hu))
            exact transitionAt_of_preframe (s.tables id) (s1.tables id) (s2.tables id) u c h1
              h2.1 h2.2
      · intro j hj id
        have h2 := hframe j (fun x hx => hj x (List.mem_cons_of_mem v hx)) id
        have h1 := markVaddr_entry_frame s s1 v c hmv id j
          (Ne.symm (hj v (List.mem_cons_self v rest)))
        exact ⟨h2.1.trans h1.1, h2.2.trans h1.2⟩
      · intro w hw
        have h2 := hmframe w (fun x hx => hw x (List.mem_cons_of_mem v hx))
        rw [h2, hmark1, Mark_IsCached_ne s.cache_marker v w c
          (hw v (List.mem_cons_self v rest))]

theorem phys_step_eq (paddr i : Nat) :
    paddr + PAGE_SIZE + i * PAGE_SIZE = paddr + (i + 1) * PAGE_SIZE := by
  simp only [PAGE_SIZE]
  omega

theorem phys_pages_ne_step (paddr i : Nat) :
    (paddr + PAGE_SIZE + i * PAGE_SIZE) / PAGE_SIZE ≠ paddr / PAGE_SIZE := by
  simp only [PAGE_SIZE]
  omega

/-- What the page loop of `RasterizerMarkRegionCached` does over `n`
pages starting at `paddr` (no `u32` wraparound among the visited pages):
for every page of the range and every alias, the marker records the bit
and every registered table's entry makes the transition; all other
entries and marker cells are untouched. -/
theorem markPages_char (n : Nat) :
    ∀ (s s2 : MemorySystem) (paddr : Nat) (c : Bool),
      markPages s paddr c n = some s2 →
      (∀ i, i < n → paddr + i * PAGE_SIZE < TWO32) →
      (s2.page_table_list = s.page_table_list ∧ s2.currentTable = s.currentTable ∧
        s2.mem = s.mem ∧ s2.dspSet = s.dspSet) ∧
      (∀ i, i < n → ∀ v,
        v ∈ (PhysicalToVirtualAddressForRasterizer (paddr + i * PAGE_SIZE)).1 →
        s2.cache_marker.IsCached v = c ∧
        ∀ id ∈ s.page_table_list, transitionAt (s.tables id) (s2.tables id) v c) ∧
      (∀ j, (∀ i, i < n → ∀ v,
          v ∈ (PhysicalToVirtualAddressForRasterizer (paddr + i * PAGE_SIZE)).1 →
          v / PAGE_SIZE ≠ j) →
        ∀ id, (s2.tables id).attributes j = (s.tables id).attributes j ∧
          (s2.tables id).pointers j = (s.tables id).pointers j) ∧
      (∀ w, (∀ i, i < n → ∀ v,
          v ∈ (PhysicalToVirtualAddressForRasterizer (paddr + i * PAGE_SIZE)).1 →
          v / PAGE_SIZE ≠ w / PAGE_SIZE) →
        s2.cache_marker.IsCached w = s.cache_marker.IsCached w) := by
  induction n with
  | zero =>
    intro s s2 paddr c h _
    simp only [markPages, Option.some.injEq] at h
    subst h
    exact ⟨⟨rfl, rfl, rfl, rfl⟩, fun i hi => absurd hi (by omega),
      fun j _ id => ⟨rfl, rfl⟩, fun w _ => rfl⟩
  | succ m ih =>
    intro s s2 paddr c h hnw
    simp only [markPages] at h
    rcases hma : markAliases s (PhysicalToVirtualAddressForRasterizer paddr).1 c with _ | s1 <;>
      rw [hma] at h
    · exact absurd h (by simp)
    · obtain ⟨hstate1, htrans1, hframe1, hmframe1⟩ :=
        markAliases_char (PhysicalToVirtualAddressForRasterizer paddr).1 s s1 c hma
          (aliases_pairwise paddr) (fun v hv => aliases_inWindow paddr v hv)
      have h0 : paddr + 0 * PAGE_SIZE = paddr := by omega
      rcases Nat.eq_zero_or_pos m with hm | hm
      · subst hm
        simp only [markPages, Option.some.injEq] at h
        subst h
        refine ⟨hstate1, ?_, ?_, ?_⟩
        · intro i hi v hv
          have hi0 : i = 0 := by omega
          subst hi0
          rw [h0] at hv
          exact ⟨(htrans1 v hv).1, (htrans1 v hv).2⟩
        · intro j hj id
          exact hframe1 j (fun v hv => hj 0 (by omega) v (by rw [h0]; exact hv)) id
        · intro w hw
          exact hmframe1 w (fun v hv => hw 0 (by omega) v (by rw [h0]; exact hv))
      · have hmod : (paddr + PAGE_SIZE) % TWO32 = paddr + PAGE_SIZE := by
          have h1 := hnw 1 (by omega)
          rw [Nat.mod_eq_of_lt]
          simp only [Nat.one_mul] at h1
          exact h1
        rw [hmod] at h
        obtain ⟨hstate2, htrans2, hframe2, hmframe2⟩ := ih s1 s2 (paddr + PAGE_SIZE) c h
          (fun i hi => by
            rw [phys_step_eq]
            exact hnw (i + 1) (by omega))
        refine ⟨⟨hstate2.1.trans hstate1.1, hstate2.2.1.trans hstate1.2.1,
          hstate2.2.2.1.trans hstate1.2.2.1, hstate2.2.2.2.trans hstate1.2.2.2⟩, ?_, ?_, ?_⟩
        · intro i hi v hv
          rcases i with _ | k
          · rw [h0] at hv
            constructor
            · have hmstep := hmframe2 v (fun i2 hi2 u hu =>
                aliases_pages_ne _ _ u v hu hv (phys_pages_ne_step paddr i2))
              rw [hmstep]
              exact (htrans1 v hv).1
            · intro id hid
              have h1 := (htrans1 v hv).2 id hid
              have h2 := hframe2 (v / PAGE_SIZE) (fun i2 hi2 u hu =>
                aliases_pages_ne _ _ u v hu hv (phys_pages_ne_step paddr i2)) id
              exact transitionAt_of_frame (s.tables id) (s1.tables id) (s2.tables id) v c h1
                h2.1 h2.2
          · have hv' : v ∈ (PhysicalToVirtualAddressForRasterizer
                (paddr + PAGE_SIZE + k * PAGE_SIZE)).1 := by
              rw [phys_step_eq]
              exact hv
            constructor
            · exact (htrans2 k (by omega) v hv').1
            · intro id hid
              have h1 := (htrans2 k (by omega) v hv').2 id (by rw [hstate1.1]; exact hid)
              have hvpage : ∀ u, u ∈ (PhysicalToVirtualAddressForRasterizer paddr).1 →
                  u / PAGE_SIZE ≠ v / PAGE_SIZE := by
                intro u hu
                exact aliases_pages_ne _ _ u v hu hv' (Ne.symm (phys_pages_ne_step paddr k))
              have h2 := hframe1 (v / PAGE_SIZE) hvpage id
              exact transitionAt_of_preframe (s.tables id) (s1.tables id) (s2.tables id) v c
                h1 h2.1 h2.2
        · intro j hj id
          have h2 := hframe2 j (fun i2 hi2 u hu => by
            have hu' : u ∈ (PhysicalToVirtualAddressForRasterizer
                (paddr + (i2 + 1) * PAGE_SIZE)).1 := by
              rw [← phys_step_eq]
              exact hu
            exact hj (i2 + 1) (by omega) u hu') id
          have h1 := hframe1 j (fun u hu => hj 0 (by omega) u (by rw [h0]; exact hu)) id
          exact ⟨h2.1.trans h1.1, h2.2.trans h1.2⟩
        · intro w hw
          have h2 := hmframe2 w (fun i2 hi2 u hu => by
            have hu' : u ∈ (PhysicalToVirtualAddressForRasterizer
                (paddr + (i2 + 1) * PAGE_SIZE)).1 := by
              rw [← phys_step_eq]
              exact hu
            exact hw (i2 + 1) (by omega) u hu')
          have h1 := hmframe1 w (fun u hu => hw 0 (by omega) u (by rw [h0]; exact hu))
          exact h2.trans h1

/-! ### C3: the semantics of RasterizerMarkRegionCached -/

/-- C3: a call `RasterizerMarkRegionCached(start, size, cached)` with
`start ≠ 0` records, for every page overlapping `[start, start+size)` and
every virtual alias of that page, the new cached bit in the marker and
applies the attribute transition table (`transitionAt`) to every
registered page table; a call with `start = 0` changes nothing.  The
page with index `start / PAGE_SIZE + i` is visited at the unaligned
representative `start + i * PAGE_SIZE`, exactly as in the source loop. -/
theorem rasterizerMarkRegionCached_char (s : MemorySystem) (start size : Nat) (cached : Bool)
    (s2 : MemorySystem) (hsz : 1 ≤ size) (hnw : start + size ≤ TWO32)
    (hmark : s.RasterizerMarkRegionCached start size cached = some s2) :
    (start = 0 → s2 = s) ∧
    (start ≠ 0 → ∀ i, start / PAGE_SIZE + i ≤ (start + size - 1) / PAGE_SIZE →
      ∀ v, v ∈ (PhysicalToVirtualAddressForRasterizer (start + i * PAGE_SIZE)).1 →
        s2.cache_marker.IsCached v = cached ∧
        ∀ id, id ∈ s.page_table_list →
          transitionAt (s.tables id) (s2.tables id) v cached) := by
  unfold MemorySystem.RasterizerMarkRegionCached at hmark
  by_cases hstart : start = 0
  · rw [if_pos hstart] at hmark
    simp only [Option.some.injEq] at hmark
    exact ⟨fun _ => hmark.symm, fun h => absurd hstart h⟩
  · rw [if_neg hstart] at hmark
    have hnum : ((((start + size - 1) % TWO32) / PAGE_SIZE + TWO32 - start / PAGE_SIZE) % TWO32
        + 1) % TWO32 = (start + size - 1) / PAGE_SIZE - start / PAGE_SIZE + 1 := by
      simp only [PAGE_SIZE, TWO32] at *
      omega
    rw [hnum] at hmark
    have hbound : ∀ i, i < (start + size - 1) / PAGE_SIZE - start / PAGE_SIZE + 1 →
        start + i * PAGE_SIZE < TWO32 := by
      intro i hi
      simp only [PAGE_SIZE, TWO32] at *
      omega
    obtain ⟨_, htrans, _, _⟩ := markPages_char _ s s2 start cached hmark hbound
    refine ⟨fun h0 => absurd h0 hstart, fun _ i hi v hv => ?_⟩
    have hi' : i < (start + size - 1) / PAGE_SIZE - start / PAGE_SIZE + 1 := by
      have : start / PAGE_SIZE ≤ (start + size - 1) / PAGE_SIZE := by
        simp only [PAGE_SIZE]
        omega
      omega
    exact ⟨(htrans i hi' v hv).1, (htrans i hi' v hv).2⟩

/-- A state with one registered table mapping the linear-heap alias of
FCRAM page 0 as `Memory` backed by FCRAM offset 0, for the C3 and C6
witnesses. -/
def c3State : MemorySystem :=
  { initState with
      tables := fun _ =>
        ⟨fun i => if i = LINEAR_HEAP_VADDR / PAGE_SIZE then some ⟨Backing.fcram, 0⟩ else none,
          fun i => if i = LINEAR_HEAP_VADDR / PAGE_SIZE then PageType.Memory
                   else PageType.Unmapped⟩
      page_table_list := [0] }

/-- Witness for C3: marking FCRAM page 0 cached with one registered table
sets the marker bit of the linear-heap alias and makes the table's
transition there. -/
theorem rasterizerMarkRegionCached_char_witness :
    (1 ≤ PAGE_SIZE ∧ FCRAM_PADDR + PAGE_SIZE ≤ TWO32 ∧ FCRAM_PADDR ≠ 0 ∧
      FCRAM_PADDR / PAGE_SIZE + 0 ≤ (FCRAM_PADDR + PAGE_SIZE - 1) / PAGE_SIZE ∧
      LINEAR_HEAP_VADDR ∈
        (PhysicalToVirtualAddressForRasterizer (FCRAM_PADDR + 0 * PAGE_SIZE)).1 ∧
      0 ∈ c3State.page_table_list) ∧
    ∃ s2, c3State.RasterizerMarkRegionCached FCRAM_PADDR PAGE_SIZE true = some s2 ∧
      s2.cache_marker.IsCached LINEAR_HEAP_VADDR = true ∧
      transitionAt (c3State.tables 0) (s2.tables 0) LINEAR_HEAP_VADDR true := by
  refine ⟨⟨by decide, by decide, by decide, by decide, by decide, by decide⟩, ?_⟩
  have hsome : (c3State.RasterizerMarkRegionCached FCRAM_PADDR PAGE_SIZE true).isSome =
      true := rfl
  obtain ⟨s2, hs2⟩ := Option.isSome_iff_exists.mp hsome
  have hch := rasterizerMarkRegionCached_char c3State FCRAM_PADDR PAGE_SIZE true s2
    (by decide) (by decide) hs2
  have := hch.2 (by decide) 0 (by decide) LINEAR_HEAP_VADDR (by decide)
  exact ⟨s2, hs2, this.1, this.2 0 (by decide)⟩

/-! ### C6: the mark-cached / mark-uncached round trip -/

theorem physicalPointer_bounds (s : MemorySystem) (paddr : Nat) (p : HostPtr)
    (h : s.GetPhysicalPointer paddr = some p) : 0 < paddr ∧ paddr < TWO32 := by
  unfold MemorySystem.GetPhysicalPointer at h
  split_ifs at h <;>
    simp only [VRAM_PADDR, VRAM_PADDR_END, VRAM_SIZE, DSP_RAM_PADDR, DSP_RAM_PADDR_END,
      DSP_RAM_SIZE, FCRAM_PADDR, FCRAM_N3DS_PADDR_END, FCRAM_N3DS_SIZE, N3DS_EXTRA_RAM_PADDR,
      N3DS_EXTRA_RAM_PADDR_END, N3DS_EXTRA_RAM_SIZE, TWO32] at * <;>
    first
      | omega
      | exact absurd h (by simp)

/-- For a page-aligned physical address whose physical pointer is `p`,
every rasterizer alias of that address is page-aligned and its canonical
rasterizer-cache pointer is exactly `p`. -/
theorem canonical_of_physicalPointer (s : MemorySystem) (paddr : Nat) (p : HostPtr)
    (hphys : s.GetPhysicalPointer paddr = some p) (halign : paddr % PAGE_SIZE = 0)
    (v : Nat) (hv : v ∈ (PhysicalToVirtualAddressForRasterizer paddr).1) :
    GetPointerForRasterizerCache v = some p ∧ v % PAGE_SIZE = 0 := by
  unfold MemorySystem.GetPhysicalPointer at hphys
  unfold GetPointerForRasterizerCache
  rcases mem_physicalToVirtual paddr v hv with ⟨h1, h2, h3⟩ | ⟨h1, h2, h3 | h3⟩ | ⟨h1, h2, h3⟩ <;>
    subst h3
  · rw [if_pos (by
      simp only [VRAM_PADDR, VRAM_PADDR_END, VRAM_SIZE] at h1 h2
      simp only [VRAM_PADDR, VRAM_PADDR_END, VRAM_SIZE, VRAM_VADDR, VRAM_VADDR_END]
      omega)] at hphys
    simp only [Option.some.injEq] at hphys
    rw [if_neg (by
        simp only [VRAM_PADDR, VRAM_PADDR_END, VRAM_SIZE] at h1 h2
        simp only [VRAM_VADDR, LINEAR_HEAP_VADDR, LINEAR_HEAP_VADDR_END, LINEAR_HEAP_SIZE,
          VRAM_PADDR]
        omega),
      if_neg (by
        simp only [VRAM_PADDR, VRAM_PADDR_END, VRAM_SIZE] at h1 h2
        simp only [VRAM_VADDR, NEW_LINEAR_HEAP_VADDR, NEW_LINEAR_HEAP_VADDR_END,
          NEW_LINEAR_HEAP_SIZE, VRAM_PADDR]
        omega),
      if_pos (by
        simp only [VRAM_PADDR, VRAM_PADDR_END, VRAM_SIZE] at h1 h2
        simp only [VRAM_VADDR, VRAM_VADDR_END, VRAM_SIZE, VRAM_PADDR]
        omega)]
    rw [← hphys]
    constructor
    · simp only [Option.some.injEq, HostPtr.mk.injEq, true_and]
      simp only [VRAM_PADDR, VRAM_VADDR] at *
      omega
    · simp only [VRAM_PADDR, VRAM_VADDR, PAGE_SIZE] at *
      omega
  · rw [if_neg (by
        simp only [FCRAM_PADDR, FCRAM_PADDR_END, FCRAM_SIZE] at h1 h2
        simp only [VRAM_PADDR, VRAM_PADDR_END, VRAM_SIZE]
        omega),
      if_neg (by
        simp only [FCRAM_PADDR, FCRAM_PADDR_END, FCRAM_SIZE] at h1 h2
        simp only [DSP_RAM_PADDR, DSP_RAM_PADDR_END, DSP_RAM_SIZE]
        omega),
      if_pos (by
        simp only [FCRAM_PADDR, FCRAM_PADDR_END, FCRAM_SIZE] at h1 h2
        simp only [FCRAM_PADDR, FCRAM_N3DS_PADDR_END, FCRAM_N3DS_SIZE]
        omega)] at hphys
    simp only [Option.some.injEq] at hphys
    rw [if_pos (by
      simp only [FCRAM_PADDR, FCRAM_PADDR_END, FCRAM_SIZE] at h1 h2
      simp only [LINEAR_HEAP_VADDR, LINEAR_HEAP_VADDR_END, LINEAR_HEAP_SIZE, FCRAM_PADDR]
      omega)]
    rw [← hphys]
    constructor
    · simp only [Option.some.injEq, HostPtr.mk.injEq, true_and]
      simp only [FCRAM_PADDR, LINEAR_HEAP_VADDR] at *
      omega
    · simp only [FCRAM_PADDR, LINEAR_HEAP_VADDR, PAGE_SIZE] at *
      omega
  · rw [if_neg (by
        simp only [FCRAM_PADDR, FCRAM_PADDR_END, FCRAM_SIZE] at h1 h2
        simp only [VRAM_PADDR, VRAM_PADDR_END, VRAM_SIZE]
        omega),
      if_neg (by
        simp only [FCRAM_PADDR, FCRAM_PADDR_END, FCRAM_SIZE] at h1 h2
        simp only [DSP_RAM_PADDR, DSP_RAM_PADDR_END, DSP_RAM_SIZE]
        omega),
      if_pos (by
        simp only [FCRAM_PADDR, FCRAM_PADDR_END, FCRAM_SIZE] at h1 h2
        simp only [FCRAM_PADDR, FCRAM_N3DS_PADDR_END, FCRAM_N3DS_SIZE]
        omega)] at hphys
    simp only [Option.some.injEq] at hphys
    rw [if_neg (by
        simp only [FCRAM_PADDR, FCRAM_PADDR_END, FCRAM_SIZE] at h1 h2
        simp only [NEW_LINEAR_HEAP_VADDR, LINEAR_HEAP_VADDR, LINEAR_HEAP_VADDR_END,
          LINEAR_HEAP_SIZE, FCRAM_PADDR]
        omega),
      if_pos (by
        simp only [FCRAM_PADDR, FCRAM_PADDR_END, FCRAM_SIZE] at h1 h2
        simp only [NEW_LINEAR_HEAP_VADDR, NEW_LINEAR_HEAP_VADDR_END, NEW_LINEAR_HEAP_SIZE,
          FCRAM_PADDR]
        omega)]
    rw [← hphys]
    constructor
    · simp only [Option.some.injEq, HostPtr.mk.injEq, true_and]
      simp only [FCRAM_PADDR, NEW_LINEAR_HEAP_VADDR] at *
      omega
    · simp only [FCRAM_PADDR, NEW_LINEAR_HEAP_VADDR, PAGE_SIZE] at *
      omega
  · rw [if_neg (by
        simp only [FCRAM_PADDR, FCRAM_PADDR_END, FCRAM_SIZE, FCRAM_N3DS_PADDR_END,
          FCRAM_N3DS_SIZE] at h1 h2
        simp only [VRAM_PADDR, VRAM_PADDR_END, VRAM_SIZE]
        omega),
      if_neg (by
        simp only [FCRAM_PADDR, FCRAM_PADDR_END, FCRAM_SIZE, FCRAM_N3DS_PADDR_END,
          FCRAM_N3DS_SIZE] at h1 h2
        simp only [DSP_RAM_PADDR, DSP_RAM_PADDR_END, DSP_RAM_SIZE]
        omega),
      if_pos (by
        simp only [FCRAM_PADDR, FCRAM_PADDR_END, FCRAM_SIZE, FCRAM_N3DS_PADDR_END,
          FCRAM_N3DS_SIZE] at h1 h2
        simp only [FCRAM_PADDR, FCRAM_N3DS_PADDR_END, FCRAM_N3DS_SIZE]
        omega)] at hphys
    simp only [Option.some.injEq] at hphys
    rw [if_neg (by
        simp only [FCRAM_PADDR, FCRAM_PADDR_END, FCRAM_SIZE, FCRAM_N3DS_PADDR_END,
          FCRAM_N3DS_SIZE] at h1 h2
        simp only [NEW_LINEAR_HEAP_VADDR, LINEAR_HEAP_VADDR, LINEAR_HEAP_VADDR_END,
          LINEAR_HEAP_SIZE, FCRAM_PADDR]
        omega),
      if_pos (by
        simp only [FCRAM_PADDR, FCRAM_PADDR_END, FCRAM_SIZE, FCRAM_N3DS_PADDR_END,
          FCRAM_N3DS_SIZE] at h1 h2
        simp only [NEW_LINEAR_HEAP_VADDR, NEW_LINEAR_HEAP_VADDR_END, NEW_LINEAR_HEAP_SIZE,
          FCRAM_PADDR]
        omega)]
    rw [← hphys]
    constructor
    · simp only [Option.some.injEq, HostPtr.mk.injEq, true_and]
      simp only [FCRAM_PADDR, NEW_LINEAR_HEAP_VADDR] at *
      omega
    · simp only [FCRAM_PADDR, NEW_LINEAR_HEAP_VADDR, PAGE_SIZE] at *
      omega

/-- C6: marking a page-aligned physical page as rasterizer-cached and then
unmarking it restores, in every registered page table, the page's original
`Memory` attribute and its original host pointer bit-for-bit, provided the
page's stored pointer is the physical image of `paddr`
(`GetPhysicalPointer paddr = some p`). -/
theorem rasterizer_mark_roundtrip (s s1 s2 : MemorySystem) (id pi : Nat) (p : HostPtr)
    (paddr : Nat) (hid : id ∈ s.page_table_list)
    (hattr : (s.tables id).attributes pi = PageType.Memory)
    (hptr : (s.tables id).pointers pi = some p)
    (hphys : s.GetPhysicalPointer paddr = some p)
    (halign : paddr % PAGE_SIZE = 0)
    (hm1 : s.RasterizerMarkRegionCached paddr PAGE_SIZE true = some s1)
    (hm2 : s1.RasterizerMarkRegionCached paddr PAGE_SIZE false = some s2) :
    (s2.tables id).attributes pi = PageType.Memory ∧
    (s2.tables id).pointers pi = some p := by
  obtain ⟨hpos, hlt⟩ := physicalPointer_bounds s paddr p hphys
  have hstart : paddr ≠ 0 := by omega
  unfold MemorySystem.RasterizerMarkRegionCached at hm1 hm2
  rw [if_neg hstart] at hm1 hm2
  have hnum : ((((paddr + PAGE_SIZE - 1) % TWO32) / PAGE_SIZE + TWO32 - paddr / PAGE_SIZE)
      % TWO32 + 1) % TWO32 = 1 := by
    simp only [PAGE_SIZE, TWO32] at halign hlt ⊢
    omega
  rw [hnum] at hm1 hm2
  have hbound : ∀ i, i < 1 → paddr + i * PAGE_SIZE < TWO32 := by
    intro i hi
    simp only [PAGE_SIZE, TWO32] at hlt ⊢
    omega
  obtain ⟨hstate1, htrans1, hframe1, _⟩ := markPages_char 1 s s1 paddr true hm1 hbound
  obtain ⟨hstate2, htrans2, hframe2, _⟩ := markPages_char 1 s1 s2 paddr false hm2 hbound
  have h0 : paddr + 0 * PAGE_SIZE = paddr := by omega
  by_cases hmatch : ∀ v ∈ (PhysicalToVirtualAddressForRasterizer paddr).1,
      v / PAGE_SIZE ≠ pi
  · have hf1 := hframe1 pi (fun i hi v hv => by
      have hi0 : i = 0 := by omega
      subst hi0
      rw [h0] at hv
      exact hmatch v hv) id
    have hf2 := hframe2 pi (fun i hi v hv => by
      have hi0 : i = 0 := by omega
      subst hi0
      rw [h0] at hv
      exact hmatch v hv) id
    exact ⟨hf2.1.trans (hf1.1.trans hattr), hf2.2.trans (hf1.2.trans hptr)⟩
  · push_neg at hmatch
    obtain ⟨v, hv, hvpi⟩ := hmatch
    have hv0 : v ∈ (PhysicalToVirtualAddressForRasterizer (paddr + 0 * PAGE_SIZE)).1 := by
      rw [h0]
      exact hv
    have ht1 := (htrans1 0 (by omega) v hv0).2 id hid
    have hid1 : id ∈ s1.page_table_list := by
      rw [hstate1.1]
      exact hid
    have ht2 := (htrans2 0 (by omega) v hv0).2 id hid1
    obtain ⟨hcanon, hvalign⟩ := canonical_of_physicalPointer s paddr p hphys halign v hv
    have ha1 := ht1.2.1 rfl (by rw [hvpi]; exact hattr)
    have ha2 := ht2.2.2 rfl ha1.1
    rw [← hvpi]
    refine ⟨ha2.1, ?_⟩
    rw [ha2.2, hvalign, Nat.sub_zero]
    exact hcanon

/-- Witness for C6 at `c3State`: FCRAM page 0 (mapped at its linear-heap
alias as `Memory` with pointer FCRAM+0) survives a cached/uncached mark
round trip with attribute and pointer restored. -/
theorem rasterizer_mark_roundtrip_witness :
    (0 ∈ c3State.page_table_list ∧
      (c3State.tables 0).attributes (LINEAR_HEAP_VADDR / PAGE_SIZE) = PageType.Memory ∧
      (c3State.tables 0).pointers (LINEAR_HEAP_VADDR / PAGE_SIZE) =
        some ⟨Backing.fcram, 0⟩ ∧
      c3State.GetPhysicalPointer FCRAM_PADDR = some ⟨Backing.fcram, 0⟩ ∧
      FCRAM_PADDR % PAGE_SIZE = 0) ∧
    ∃ s1 s2,
      c3State.RasterizerMarkRegionCached FCRAM_PADDR PAGE_SIZE true = some s1 ∧
      s1.RasterizerMarkRegionCached FCRAM_PADDR PAGE_SIZE false = some s2 ∧
      (s2.tables 0).attributes (LINEAR_HEAP_VADDR / PAGE_SIZE) = PageType.Memory ∧
      (s2.tables 0).pointers (LINEAR_HEAP_VADDR / PAGE_SIZE) =
        some ⟨Backing.fcram, 0⟩ := by
  refine ⟨⟨by decide, by decide, by decide, by decide, by decide⟩, ?_⟩
  have hsome1 : (c3State.RasterizerMarkRegionCached FCRAM_PADDR PAGE_SIZE true).isSome =
      true := rfl
  obtain ⟨s1, hs1⟩ := Option.isSome_iff_exists.mp hsome1
  have hsome2 : (s1.RasterizerMarkRegionCached FCRAM_PADDR PAGE_SIZE false).isSome =
      true := by
    have hcomp : ((c3State.RasterizerMarkRegionCached FCRAM_PADDR PAGE_SIZE true).bind
        (fun t => t.RasterizerMarkRegionCached FCRAM_PADDR PAGE_SIZE false)).isSome =
        true := rfl
    rw [hs1] at hcomp
    simp only [Option.some_bind] at hcomp
    exact hcomp
  obtain ⟨s2, hs2⟩ := Option.isSome_iff_exists.mp hsome2
  have hmain := rasterizer_mark_roundtrip c3State s1 s2 0 (LINEAR_HEAP_VADDR / PAGE_SIZE)
    ⟨Backing.fcram, 0⟩ FCRAM_PADDR (by decide) (by decide) (by decide) (by decide)
    (by decide) hs1 hs2
  exact ⟨s1, s2, hs1, hs2, hmain.1, hmain.2⟩

end CitraMemory
